import Mathlib

/-!
Verification of the pirido task manager core: the State Engine
(`src/hooks/useAppState.ts`), the Domain Model (`src/types.ts`), the
Persistence Adapter (`src/storage.ts`) and the AI protocol layer
(`src/openai.ts`), shallowly embedded in Lean.

JavaScript objects used as id-keyed mappings are embedded as association
lists observed only through `mget` (property lookup); property assignment
`{...m, [k]: v}` and `delete m[k]` are embedded as `mset` / `mdel`, which
agree with the JS semantics on every `mget` observation.
-/

namespace Pirido

/-! ## Association-list maps (JS object dictionaries) -/

/-- Property lookup `m[k]` on a JS object dictionary. -/
def mget {α : Type} : List (String × α) → String → Option α
  | [], _ => none
  | (k', v) :: rest, k => if k' = k then some v else mget rest k

/-- Property assignment `{...m, [k]: v}` observed through `mget`. -/
def mset {α : Type} (m : List (String × α)) (k : String) (v : α) : List (String × α) :=
  (k, v) :: m.filter (fun p => p.1 ≠ k)

/-- Property removal `delete m[k]` observed through `mget`. -/
def mdel {α : Type} (m : List (String × α)) (k : String) : List (String × α) :=
  m.filter (fun p => p.1 ≠ k)

theorem mget_filter_ne {α : Type} (m : List (String × α)) (k k' : String) :
    mget (m.filter (fun p => p.1 ≠ k)) k' = if k' = k then none else mget m k' := by
  simp only [ne_eq, decide_not]
  induction m with
  | nil => simp [mget]
  | cons p rest ih =>
    rw [List.filter_cons]
    by_cases hpk : p.1 = k
    · rw [if_neg (by simp [hpk]), ih]
      by_cases hk : k' = k
      · simp [hk]
      · have hne : ¬ p.1 = k' := fun h => hk (h ▸ hpk)
        simp [mget, hk, hne]
    · rw [if_pos (by simp [hpk])]
      by_cases hpk' : p.1 = k'
      · have hk : ¬ k' = k := fun h => hpk (by rw [hpk', h])
        simp [mget, hpk', hk]
      · simp [mget, hpk', ih]

theorem mget_mset {α : Type} (m : List (String × α)) (k : String) (v : α) (k' : String) :
    mget (mset m k v) k' = if k' = k then some v else mget m k' := by
  unfold mset
  by_cases hk : k = k'
  · subst hk; simp [mget]
  · have hk' : ¬ k' = k := fun h => hk h.symm
    simp only [mget]
    rw [if_neg hk, mget_filter_ne, if_neg hk', if_neg hk']

theorem mget_mdel {α : Type} (m : List (String × α)) (k k' : String) :
    mget (mdel m k) k' = if k' = k then none else mget m k' :=
  mget_filter_ne m k k'

theorem mget_eq_some_mem {α : Type} {m : List (String × α)} {k : String} {v : α}
    (h : mget m k = some v) : (k, v) ∈ m := by
  induction m with
  | nil => simp [mget] at h
  | cons p rest ih =>
    obtain ⟨k1, v1⟩ := p
    by_cases hpk : k1 = k
    · subst hpk
      simp [mget] at h
      subst h
      exact List.mem_cons_self _ _
    · simp [mget, hpk] at h
      exact List.mem_cons_of_mem _ (ih h)

theorem mem_mget_isSome {α : Type} {m : List (String × α)} {k : String} {v : α}
    (h : (k, v) ∈ m) : (mget m k).isSome := by
  induction m with
  | nil => simp at h
  | cons p rest ih =>
    rcases List.mem_cons.mp h with h1 | h2
    · rw [← h1]; simp [mget]
    · by_cases hpk : p.1 = k
      · simp [mget, hpk]
      · simp [mget, hpk]
        exact ih h2

/-- Fold of `mdel` over a list of keys (the delete loop in `deleteTodo`). -/
def mdelAll {α : Type} (m : List (String × α)) (ks : List String) : List (String × α) :=
  ks.foldl (fun acc k => mdel acc k) m

theorem mget_mdelAll {α : Type} (ks : List String) (m : List (String × α)) (k : String) :
    mget (mdelAll m ks) k = if k ∈ ks then none else mget m k := by
  induction ks generalizing m with
  | nil => simp [mdelAll]
  | cons a rest ih =>
    show mget (mdelAll (mdel m a) rest) k = _
    rw [ih]
    by_cases hk : k ∈ rest
    · simp [hk]
    · by_cases hka : k = a <;> simp [hk, hka, mget_mdel]

/-! ## JS string primitives (kernel-executable embeddings)

`String.prototype.trim` and the decimal part of `Number(string)` are embedded
by computable recursions over the character list, so concrete instances
evaluate inside the kernel. -/

/-- A JS whitespace character (the forms occurring in this app's data). -/
def isJsSpace (c : Char) : Bool :=
  c == ' ' || c == '\t' || c == '\n' || c == '\r'

def dropLeadingSpace : List Char → List Char
  | [] => []
  | c :: rest => if isJsSpace c then dropLeadingSpace rest else c :: rest

/-- Embeds `s.trim()` over ASCII whitespace. -/
def jsTrim (s : String) : String :=
  String.mk (dropLeadingSpace ((dropLeadingSpace s.data.reverse).reverse))

def parseNatChars : List Char → Nat → Option Nat
  | [], acc => some acc
  | c :: rest, acc =>
    if 48 ≤ c.toNat ∧ c.toNat ≤ 57 then parseNatChars rest (acc * 10 + (c.toNat - 48))
    else none

/-- Embeds `Number(s)` restricted to the integer-or-not outcome, for the plain
decimal shapes: the trimmed empty string is 0, an optionally signed digit
string is its value, anything else (including fractional strings, whose JS
value is a non-integer anyway) is `none`. -/
def jsStringToNumber (s : String) : Option Int :=
  match (jsTrim s).data with
  | [] => some 0
  | '-' :: rest =>
    match rest with
    | [] => none
    | _ => (parseNatChars rest 0).map (fun n => -(n : Int))
  | '+' :: rest =>
    match rest with
    | [] => none
    | _ => (parseNatChars rest 0).map (fun n => (n : Int))
  | cs => (parseNatChars cs 0).map (fun n => (n : Int))

/-! ## Domain model (`src/types.ts`) -/

/-- Embeds `SubTask` from `src/types.ts`; `source` is the literal tag, only ever `"ai"`. -/
structure SubTask where
  id : String
  parentId : String
  text : String
  completed : Bool
  createdAt : String
  source : String
  deriving DecidableEq, Repr

/-- Embeds `Todo` from `src/types.ts`. The TS `Priority` union `0|…|5` is embedded as `Int`
(the runtime representation); range membership is stated where the spec claims it. -/
structure Todo where
  id : String
  text : String
  priority : Int
  completed : Bool
  createdAt : String
  subTaskIds : List String
  deriving DecidableEq, Repr

/-- Embeds `AppSettings` from `src/types.ts`. -/
structure AppSettings where
  openaiApiKey : String
  model : String
  deriving DecidableEq, Repr

/-- Embeds `AppState` from `src/types.ts` (`schemaVersion` is the constant 1 and carried
by the Persistence Adapter embedding, not here). -/
structure AppState where
  todos : List (String × Todo)
  subTasks : List (String × SubTask)
  todoOrder : List String
  collapsedTodoIds : List String
  settings : AppSettings
  deriving DecidableEq, Repr

/-- Argument of `updateSettings` (`Partial<AppSettings>`): a field is `none`
when the partial object omits it. -/
structure SettingsPatch where
  openaiApiKey : Option String
  model : Option String
  deriving DecidableEq, Repr

/-! ## State Engine operations (`src/hooks/useAppState.ts`)

Each `useCallback` reducer is embedded as a pure function from the previous
state (plus its arguments) to the next state.  `newId()` results and
`new Date().toISOString()` timestamps are nondeterministic inputs of the
program and become explicit parameters. -/

/-- Embeds `createTodo` (useAppState.ts:27). `id` is the value produced by `newId()`
and `createdAt` the current timestamp. -/
def createTodo (s : AppState) (id text createdAt : String) : AppState :=
  { s with
    todos := mset s.todos id
      { id := id, text := text, priority := 0, completed := false
        createdAt := createdAt, subTaskIds := [] }
    todoOrder := id :: s.todoOrder }

/-- One iteration of the cascade loop of `toggleTodoCompleted`
(useAppState.ts:76-85): force the sub-task to completed unless missing or
already completed. -/
def cascadeStep (acc : List (String × SubTask)) (subTaskId : String) :
    List (String × SubTask) :=
  match mget acc subTaskId with
  | none => acc
  | some subTask =>
    if subTask.completed then acc
    else mset acc subTaskId { subTask with completed := true }

/-- The cascade loop of `toggleTodoCompleted` (useAppState.ts:74-86): force
every still-incomplete sub-task in `ids` to completed. -/
def cascadeComplete (m : List (String × SubTask)) (ids : List String) :
    List (String × SubTask) :=
  ids.foldl cascadeStep m

/-- Embeds `toggleTodoCompleted` (useAppState.ts:50). -/
def toggleTodoCompleted (s : AppState) (todoId : String) : AppState :=
  match mget s.todos todoId with
  | none => s
  | some todo =>
    let nextCompleted := !todo.completed
    let withoutTarget := s.todoOrder.filter (fun id => id ≠ todoId)
    let uncheckedIds := withoutTarget.filter (fun id =>
      match mget s.todos id with
      | some item => !item.completed
      | none => false)
    let checkedIds := withoutTarget.filter (fun id =>
      match mget s.todos id with
      | some item => item.completed
      | none => false)
    let nextTodoOrder :=
      if nextCompleted then uncheckedIds ++ todoId :: checkedIds else s.todoOrder
    let nextSubTasks :=
      if nextCompleted then cascadeComplete s.subTasks todo.subTaskIds else s.subTasks
    { s with
      todos := mset s.todos todoId { todo with completed := nextCompleted }
      subTasks := nextSubTasks
      todoOrder := nextTodoOrder }

/-- Embeds `deleteTodo` (useAppState.ts:104). -/
def deleteTodo (s : AppState) (todoId : String) : AppState :=
  match mget s.todos todoId with
  | none => s
  | some todo =>
    { s with
      todos := mdel s.todos todoId
      subTasks := mdelAll s.subTasks todo.subTaskIds
      todoOrder := s.todoOrder.filter (fun id => id ≠ todoId)
      collapsedTodoIds := s.collapsedTodoIds.filter (fun id => id ≠ todoId) }

/-- A generated sub-task record as built in the `addGeneratedSubTasks` loop
(useAppState.ts:147-154); the item is the `(newId(), item.text)` pair. -/
def mkGenSubTask (todoId createdAt : String) (item : String × String) : SubTask :=
  { id := item.1, parentId := todoId, text := jsTrim item.2
    completed := false, createdAt := createdAt, source := "ai" }

/-- The sub-task-building loop of `addGeneratedSubTasks` (useAppState.ts:144-157). -/
def genSubsFold (todoId createdAt : String) (m : List (String × SubTask)) :
    List (String × String) → List (String × SubTask) :=
  fun items =>
    items.foldl (fun acc item => mset acc item.1 (mkGenSubTask todoId createdAt item)) m

/-- Embeds `addGeneratedSubTasks` (useAppState.ts:129).  Each element of `items`
pairs the `newId()` value generated for it with its `text` field. -/
def addGeneratedSubTasks (s : AppState) (todoId : String)
    (items : List (String × String)) (createdAt : String) : AppState :=
  if items.isEmpty then s
  else
    match mget s.todos todoId with
    | none => s
    | some todo =>
      let nextSubTasks := genSubsFold todoId createdAt s.subTasks items
      { s with
        subTasks := nextSubTasks
        todos := mset s.todos todoId
          { todo with subTaskIds := todo.subTaskIds ++ items.map (fun item => item.1) } }

/-- Embeds `toggleSubTaskCompleted` (useAppState.ts:177). -/
def toggleSubTaskCompleted (s : AppState) (subTaskId : String) : AppState :=
  match mget s.subTasks subTaskId with
  | none => s
  | some target =>
    { s with subTasks := mset s.subTasks subTaskId { target with completed := !target.completed } }

/-- Embeds `updateTodoText` (useAppState.ts:197). -/
def updateTodoText (s : AppState) (todoId text : String) : AppState :=
  let nextText := jsTrim text
  if nextText = "" then s
  else
    match mget s.todos todoId with
    | none => s
    | some todo => { s with todos := mset s.todos todoId { todo with text := nextText } }

/-- Embeds `updateSubTaskText` (useAppState.ts:222). -/
def updateSubTaskText (s : AppState) (subTaskId text : String) : AppState :=
  let nextText := jsTrim text
  if nextText = "" then s
  else
    match mget s.subTasks subTaskId with
    | none => s
    | some target => { s with subTasks := mset s.subTasks subTaskId { target with text := nextText } }

/-- Embeds `deleteSubTask` (useAppState.ts:247). -/
def deleteSubTask (s : AppState) (subTaskId : String) : AppState :=
  match mget s.subTasks subTaskId with
  | none => s
  | some target =>
    let nextSubTasks := mdel s.subTasks subTaskId
    match mget s.todos target.parentId with
    | none => { s with subTasks := nextSubTasks }
    | some parent =>
      { s with
        subTasks := nextSubTasks
        todos := mset s.todos parent.id
          { parent with subTaskIds := parent.subTaskIds.filter (fun id => id ≠ subTaskId) } }

/-- Embeds `updateSettings` (useAppState.ts:279): shallow merge of the provided fields. -/
def updateSettings (s : AppState) (p : SettingsPatch) : AppState :=
  { s with settings :=
      { openaiApiKey := p.openaiApiKey.getD s.settings.openaiApiKey
        model := p.model.getD s.settings.model } }

/-- Embeds `clearSettings` (useAppState.ts:289). -/
def clearSettings (s : AppState) : AppState :=
  { s with settings := { openaiApiKey := "", model := s.settings.model } }

/-- Embeds `Array.prototype.indexOf` returning `none` instead of `-1`. -/
def jsIndexOf (l : List String) (x : String) : Option Nat :=
  match l with
  | [] => none
  | a :: rest => if a = x then some 0 else (jsIndexOf rest x).map (· + 1)

/-- Embeds `Array.prototype.filter` with the index argument of the callback, starting
from index `i` (the `reorderTodos` sanitization uses the index). -/
def filterIdxFrom (p : Nat → String → Bool) : Nat → List String → List String
  | _, [] => []
  | i, x :: xs => if p i x then x :: filterIdxFrom p (i + 1) xs else filterIdxFrom p (i + 1) xs

/-- One iteration of the priority-overwriting loop of `reorderTodos`
(useAppState.ts:306-315). -/
def prioStep (acc : List (String × Todo)) (pr : String × Int) : List (String × Todo) :=
  match mget acc pr.1 with
  | none => acc
  | some todo => mset acc pr.1 { todo with priority := pr.2 }

/-- The priority-overwriting loop of `reorderTodos` (useAppState.ts:305-316). -/
def prioFold (ps : List (String × Int)) (m : List (String × Todo)) : List (String × Todo) :=
  ps.foldl prioStep m

/-- Embeds `reorderTodos` (useAppState.ts:299).  `priorities` is the optional
`Record<string, Priority>`, embedded as its `Object.entries` list. -/
def reorderTodos (s : AppState) (orderedTodoIds : List String)
    (priorities : Option (List (String × Int))) : AppState :=
  let dedupedValid := filterIdxFrom
    (fun index id => s.todoOrder.contains id && (jsIndexOf orderedTodoIds id == some index))
    0 orderedTodoIds
  let remaining := s.todoOrder.filter (fun id => ¬ dedupedValid.contains id)
  let nextTodos :=
    match priorities with
    | none => s.todos
    | some ps => prioFold ps s.todos
  { s with todos := nextTodos, todoOrder := dedupedValid ++ remaining }

/-- Embeds `moveTodoToIndex` (useAppState.ts:325).  `nextIndex` is an `Int` because the
guard `nextIndex < 0` is part of the contract. -/
def moveTodoToIndex (s : AppState) (draggedTodoId : String) (nextIndex : Int) : AppState :=
  if nextIndex < 0 then s
  else
    match jsIndexOf s.todoOrder draggedTodoId with
    | none => s
    | some fromIndex =>
      if nextIndex > (s.todoOrder.length : Int) then s
      else
        let without := s.todoOrder.eraseIdx fromIndex
        let adjustedIndex :=
          if (fromIndex : Int) < nextIndex then nextIndex.toNat - 1 else nextIndex.toNat
        { s with todoOrder := without.insertIdx adjustedIndex draggedTodoId }

/-- Embeds `toggleTodoCollapsed` (useAppState.ts:348). -/
def toggleTodoCollapsed (s : AppState) (todoId : String) : AppState :=
  match mget s.todos todoId with
  | none => s
  | some _ =>
    if s.collapsedTodoIds.contains todoId then
      { s with collapsedTodoIds := s.collapsedTodoIds.filter (fun id => id ≠ todoId) }
    else
      { s with collapsedTodoIds := s.collapsedTodoIds ++ [todoId] }

/-! ## The State Engine operations as a single datatype -/

/-- One State Engine call, with the nondeterministic `newId()` /
`new Date().toISOString()` values materialized as arguments. -/
inductive Op where
  | createTodo (id text createdAt : String)
  | toggleTodoCompleted (todoId : String)
  | deleteTodo (todoId : String)
  | addGeneratedSubTasks (todoId : String) (items : List (String × String)) (createdAt : String)
  | toggleSubTaskCompleted (subTaskId : String)
  | updateTodoText (todoId text : String)
  | updateSubTaskText (subTaskId text : String)
  | deleteSubTask (subTaskId : String)
  | updateSettings (p : SettingsPatch)
  | clearSettings
  | reorderTodos (orderedTodoIds : List String) (priorities : Option (List (String × Int)))
  | moveTodoToIndex (draggedTodoId : String) (nextIndex : Int)
  | toggleTodoCollapsed (todoId : String)

def applyOp (op : Op) (s : AppState) : AppState :=
  match op with
  | .createTodo id text createdAt => createTodo s id text createdAt
  | .toggleTodoCompleted todoId => toggleTodoCompleted s todoId
  | .deleteTodo todoId => deleteTodo s todoId
  | .addGeneratedSubTasks todoId items createdAt => addGeneratedSubTasks s todoId items createdAt
  | .toggleSubTaskCompleted subTaskId => toggleSubTaskCompleted s subTaskId
  | .updateTodoText todoId text => updateTodoText s todoId text
  | .updateSubTaskText subTaskId text => updateSubTaskText s subTaskId text
  | .deleteSubTask subTaskId => deleteSubTask s subTaskId
  | .updateSettings p => updateSettings s p
  | .clearSettings => clearSettings s
  | .reorderTodos ids ps => reorderTodos s ids ps
  | .moveTodoToIndex id idx => moveTodoToIndex s id idx
  | .toggleTodoCollapsed todoId => toggleTodoCollapsed s todoId

/-- Freshness of the `newId()` values consumed by an operation: `crypto.randomUUID`
never collides with an id already in the state, and distinct calls never collide
with each other. -/
def opFresh (op : Op) (s : AppState) : Prop :=
  match op with
  | .createTodo id _ _ => mget s.todos id = none
  | .addGeneratedSubTasks _ items _ =>
      (items.map (fun item => item.1)).Nodup ∧ ∀ item ∈ items, mget s.subTasks item.1 = none
  | _ => True

/-! ## The §3 invariants -/

/-- The §3 invariants of `spec.md`: `todoOrder` is a duplicate-free enumeration of
exactly the todo mapping's keys; `collapsedTodoIds` holds only live todo ids; the
two mappings are keyed by the entities' own ids; sub-task ownership is
bidirectionally consistent (every listed sub-task id is a live sub-task whose
`parentId` is the listing todo, and every live sub-task is listed by its parent —
no orphaned sub-tasks). -/
def Inv (s : AppState) : Prop :=
  s.todoOrder.Nodup
  ∧ (∀ id ∈ s.todoOrder, (mget s.todos id).isSome)
  ∧ (∀ k t, mget s.todos k = some t → k ∈ s.todoOrder)
  ∧ (∀ id ∈ s.collapsedTodoIds, (mget s.todos id).isSome)
  ∧ (∀ k t, mget s.todos k = some t → t.id = k ∧
      ∀ sid ∈ t.subTaskIds, ∃ st, mget s.subTasks sid = some st ∧ st.parentId = k)
  ∧ (∀ k st, mget s.subTasks k = some st → st.id = k ∧
      ∃ t, mget s.todos st.parentId = some t ∧ k ∈ t.subTaskIds)

/-- Executable check of `Inv` (used to discharge `Inv` on concrete states). -/
def checkInv (s : AppState) : Bool :=
  decide s.todoOrder.Nodup
  && s.todoOrder.all (fun id => (mget s.todos id).isSome)
  && s.todos.all (fun p => decide (p.1 ∈ s.todoOrder))
  && s.collapsedTodoIds.all (fun id => (mget s.todos id).isSome)
  && s.todos.all (fun p =>
      match mget s.todos p.1 with
      | some t =>
        decide (t.id = p.1) && t.subTaskIds.all (fun sid =>
          match mget s.subTasks sid with
          | some st => decide (st.parentId = p.1)
          | none => false)
      | none => false)
  && s.subTasks.all (fun q =>
      match mget s.subTasks q.1 with
      | some st =>
        decide (st.id = q.1) &&
          (match mget s.todos st.parentId with
           | some t => decide (q.1 ∈ t.subTaskIds)
           | none => false)
      | none => false)

theorem checkInv_implies {s : AppState} (h : checkInv s = true) : Inv s := by
  unfold checkInv at h
  simp only [Bool.and_eq_true, List.all_eq_true, decide_eq_true_eq] at h
  obtain ⟨⟨⟨⟨⟨h1, h2⟩, h3⟩, h4⟩, h5⟩, h6⟩ := h
  refine ⟨h1, h2, ?_, h4, ?_, ?_⟩
  · intro k t hk
    exact h3 ⟨k, t⟩ (mget_eq_some_mem hk)
  · intro k t hk
    have h5' := h5 ⟨k, t⟩ (mget_eq_some_mem hk)
    rw [hk] at h5'
    simp only [Bool.and_eq_true, decide_eq_true_eq, List.all_eq_true] at h5'
    refine ⟨h5'.1, ?_⟩
    intro sid hsid
    have := h5'.2 sid hsid
    cases hst : mget s.subTasks sid with
    | none => rw [hst] at this; simp at this
    | some st =>
      rw [hst] at this
      simp only [decide_eq_true_eq] at this
      exact ⟨st, rfl, this⟩
  · intro k st hk
    have h6' := h6 ⟨k, st⟩ (mget_eq_some_mem hk)
    rw [hk] at h6'
    simp only [Bool.and_eq_true, decide_eq_true_eq] at h6'
    refine ⟨h6'.1, ?_⟩
    have := h6'.2
    cases ht : mget s.todos st.parentId with
    | none => rw [ht] at this; simp at this
    | some t =>
      rw [ht] at this
      simp only [decide_eq_true_eq] at this
      exact ⟨t, rfl, this⟩

/-! ## Pointwise characterizations of the State Engine loops -/

theorem setCompleted_eq_self {st : SubTask} (h : st.completed = true) :
    { st with completed := true } = st := by
  cases st
  simp_all

theorem mget_cascadeStep_ne (m : List (String × SubTask)) (a k : String) (hka : k ≠ a) :
    mget (cascadeStep m a) k = mget m k := by
  unfold cascadeStep
  cases hm : mget m a with
  | none => rfl
  | some st =>
    by_cases hc : st.completed
    · simp [hc]
    · simp [hc, mget_mset, hka]

theorem mget_cascadeComplete (ids : List String) (m : List (String × SubTask)) (k : String) :
    mget (cascadeComplete m ids) k =
      (mget m k).map (fun st => if k ∈ ids then { st with completed := true } else st) := by
  induction ids generalizing m with
  | nil => cases h : mget m k <;> simp [cascadeComplete, h]
  | cons a rest ih =>
    have hstep : cascadeComplete m (a :: rest) = cascadeComplete (cascadeStep m a) rest := rfl
    rw [hstep, ih]
    by_cases hka : k = a
    · subst hka
      cases hm : mget m k with
      | none =>
        have hz : mget (cascadeStep m k) k = none := by
          unfold cascadeStep
          rw [hm]
          exact hm
        rw [hz]
        simp
      | some st =>
        by_cases hc : st.completed
        · have hz : mget (cascadeStep m k) k = some st := by
            unfold cascadeStep
            rw [hm]
            simp [hc, hm]
          rw [hz]
          by_cases hr : k ∈ rest
          · simp [hr]
          · simp [hr, setCompleted_eq_self hc]
        · have hz : mget (cascadeStep m k) k = some { st with completed := true } := by
            unfold cascadeStep
            rw [hm]
            simp [hc, mget_mset]
          rw [hz]
          by_cases hr : k ∈ rest <;> simp [hr]
    · rw [mget_cascadeStep_ne m a k hka]
      cases mget m k <;> simp [hka, List.mem_cons]

theorem mget_genSubsFold_notMem (todoId createdAt : String) (items : List (String × String))
    (m : List (String × SubTask)) (k : String) (hk : k ∉ items.map (fun item => item.1)) :
    mget (genSubsFold todoId createdAt m items) k = mget m k := by
  induction items generalizing m with
  | nil => rfl
  | cons a rest ih =>
    simp only [List.map_cons, List.mem_cons, not_or] at hk
    have hstep : genSubsFold todoId createdAt m (a :: rest)
        = genSubsFold todoId createdAt (mset m a.1 (mkGenSubTask todoId createdAt a)) rest := rfl
    rw [hstep, ih _ hk.2, mget_mset, if_neg hk.1]

theorem mget_genSubsFold_mem (todoId createdAt : String) (items : List (String × String))
    (m : List (String × SubTask)) (item : String × String)
    (hnd : (items.map (fun it => it.1)).Nodup) (hmem : item ∈ items) :
    mget (genSubsFold todoId createdAt m items) item.1
      = some (mkGenSubTask todoId createdAt item) := by
  induction items generalizing m with
  | nil => simp at hmem
  | cons a rest ih =>
    simp only [List.map_cons, List.nodup_cons] at hnd
    have hstep : genSubsFold todoId createdAt m (a :: rest)
        = genSubsFold todoId createdAt (mset m a.1 (mkGenSubTask todoId createdAt a)) rest := rfl
    rcases List.mem_cons.mp hmem with h1 | h2
    · subst h1
      rw [hstep, mget_genSubsFold_notMem _ _ _ _ _ hnd.1, mget_mset, if_pos rfl]
    · rw [hstep]
      exact ih _ hnd.2 h2

/-- The final value the `reorderTodos` priority loop leaves at key `k`
(`d` when no entry of `ps` is keyed `k`; later entries win, as in
`Object.entries` iteration). -/
def lastPrio (ps : List (String × Int)) (k : String) (d : Int) : Int :=
  ps.foldl (fun acc pr => if pr.1 = k then pr.2 else acc) d

theorem mget_prioStep_ne (m : List (String × Todo)) (pr : String × Int) (k : String)
    (hk : k ≠ pr.1) : mget (prioStep m pr) k = mget m k := by
  unfold prioStep
  cases hm : mget m pr.1 with
  | none => rfl
  | some todo => simp [mget_mset, hk]

theorem mget_prioFold (ps : List (String × Int)) (m : List (String × Todo)) (k : String) :
    mget (prioFold ps m) k
      = (mget m k).map (fun t => { t with priority := lastPrio ps k t.priority }) := by
  induction ps generalizing m with
  | nil => cases hm : mget m k <;> simp [prioFold, lastPrio, hm]
  | cons a rest ih =>
    have hstep : prioFold (a :: rest) m = prioFold rest (prioStep m a) := rfl
    have hlast : ∀ d, lastPrio (a :: rest) k d = lastPrio rest k (if a.1 = k then a.2 else d) := by
      intro d
      rfl
    rw [hstep, ih]
    by_cases hk : a.1 = k
    · subst hk
      cases hm : mget m a.1 with
      | none =>
        have hz : mget (prioStep m a) a.1 = none := by
          unfold prioStep
          rw [hm]
          exact hm
        rw [hz]
        simp
      | some t =>
        have hz : mget (prioStep m a) a.1 = some { t with priority := a.2 } := by
          unfold prioStep
          rw [hm]
          simp [mget_mset]
        rw [hz]
        simp [hlast]
    · have hk' : k ≠ a.1 := fun h => hk h.symm
      rw [mget_prioStep_ne m a k hk']
      cases mget m k <;> simp [hlast, hk]

theorem lastPrio_not_mem (ps : List (String × Int)) (k : String) :
    ∀ d : Int, k ∉ ps.map (fun pr => pr.1) → lastPrio ps k d = d := by
  induction ps with
  | nil => intro d _; rfl
  | cons a rest ih =>
    intro d hk
    simp only [List.map_cons, List.mem_cons, not_or] at hk
    have ha : ¬ a.1 = k := fun h => hk.1 h.symm
    have hstep : lastPrio (a :: rest) k d = lastPrio rest k (if a.1 = k then a.2 else d) := rfl
    rw [hstep, if_neg ha]
    exact ih _ hk.2

theorem lastPrio_mem (ps : List (String × Int)) (k : String) (p : Int) :
    (ps.map (fun pr => pr.1)).Nodup → (k, p) ∈ ps → ∀ d : Int, lastPrio ps k d = p := by
  induction ps with
  | nil => intro _ hmem; simp at hmem
  | cons a rest ih =>
    intro hnd hmem d
    simp only [List.map_cons, List.nodup_cons] at hnd
    have hstep : lastPrio (a :: rest) k d = lastPrio rest k (if a.1 = k then a.2 else d) := rfl
    rcases List.mem_cons.mp hmem with h1 | h2
    · rw [hstep, if_pos (by rw [← h1])]
      have hnr : k ∉ rest.map (fun pr => pr.1) := by
        rw [← h1] at hnd
        exact hnd.1
      rw [lastPrio_not_mem rest k _ hnr, ← h1]
    · have ha : ¬ a.1 = k := by
        intro h
        exact hnd.1 (h ▸ List.mem_map_of_mem (fun pr => pr.1) h2)
      rw [hstep, if_neg ha]
      exact ih hnd.2 h2 _

/-! ## First-occurrence deduplication and `indexOf` -/

/-- Keep the first occurrence of each element not already in `seen`
(the spec's "first occurrence wins" sanitization). -/
def keepFirsts (seen : List String) : List String → List String
  | [] => []
  | x :: xs => if seen.contains x then keepFirsts seen xs else x :: keepFirsts (x :: seen) xs

theorem mem_keepFirsts (l : List String) (seen : List String) (x : String) :
    x ∈ keepFirsts seen l ↔ x ∈ l ∧ x ∉ seen := by
  induction l generalizing seen with
  | nil => simp [keepFirsts]
  | cons a rest ih =>
    by_cases ha : a ∈ seen
    · rw [keepFirsts, if_pos (by simpa using ha), ih]
      constructor
      · rintro ⟨h1, h2⟩
        exact ⟨List.mem_cons_of_mem _ h1, h2⟩
      · rintro ⟨h1, h2⟩
        rcases List.mem_cons.mp h1 with rfl | h1'
        · exact absurd ha h2
        · exact ⟨h1', h2⟩
    · rw [keepFirsts, if_neg (by simpa using ha)]
      by_cases hxa : x = a
      · subst hxa
        simp [ha]
      · simp only [List.mem_cons, hxa, false_or]
        rw [ih]
        simp [List.mem_cons, hxa]

theorem nodup_keepFirsts (l : List String) (seen : List String) :
    (keepFirsts seen l).Nodup := by
  induction l generalizing seen with
  | nil => simp [keepFirsts]
  | cons a rest ih =>
    by_cases ha : seen.contains a
    · rw [keepFirsts, if_pos ha]
      exact ih seen
    · rw [keepFirsts, if_neg ha]
      refine List.nodup_cons.mpr ⟨?_, ih _⟩
      rw [mem_keepFirsts]
      rintro ⟨-, h2⟩
      exact h2 (List.mem_cons_self a seen)

theorem jsIndexOf_eq_none (l : List String) (x : String) :
    jsIndexOf l x = none ↔ x ∉ l := by
  induction l with
  | nil => simp [jsIndexOf]
  | cons a rest ih =>
    by_cases hax : a = x
    · simp [jsIndexOf, hax]
    · have hxa : ¬ x = a := fun h => hax h.symm
      simp [jsIndexOf, hax, hxa, ih]

theorem jsIndexOf_getElem (l : List String) (x : String) :
    ∀ i, jsIndexOf l x = some i → ∃ h : i < l.length, l[i] = x := by
  induction l with
  | nil => intro i h; simp [jsIndexOf] at h
  | cons a rest ih =>
    intro i h
    by_cases hax : a = x
    · rw [jsIndexOf, if_pos hax] at h
      obtain rfl : (0 : Nat) = i := by simpa using h
      exact ⟨by simp, by simpa using hax⟩
    · rw [jsIndexOf, if_neg hax] at h
      cases hj : jsIndexOf rest x with
      | none => rw [hj] at h; simp at h
      | some j =>
        rw [hj] at h
        simp only [Option.map_some'] at h
        obtain rfl : j + 1 = i := by simpa using h
        obtain ⟨hlt, hget⟩ := ih j hj
        exact ⟨by simpa using Nat.succ_lt_succ hlt, by simpa using hget⟩

theorem jsIndexOf_append_self (pre suf : List String) (x : String) (hx : x ∉ pre) :
    jsIndexOf (pre ++ x :: suf) x = some pre.length := by
  induction pre with
  | nil => simp [jsIndexOf]
  | cons a rest ih =>
    simp only [List.mem_cons, not_or] at hx
    have hax : ¬ a = x := fun h => hx.1 h.symm
    rw [List.cons_append, jsIndexOf, if_neg hax, ih hx.2]
    simp [List.length_cons]

theorem jsIndexOf_mem_front (pre rest : List String) (x : String) (hx : x ∈ pre) :
    ∃ i, jsIndexOf (pre ++ rest) x = some i ∧ i < pre.length := by
  induction pre with
  | nil => simp at hx
  | cons a pre' ih =>
    by_cases hax : a = x
    · exact ⟨0, by rw [List.cons_append, jsIndexOf, if_pos hax], by simp⟩
    · have hx' : x ∈ pre' := by
        rcases List.mem_cons.mp hx with rfl | h
        · exact absurd rfl hax
        · exact h
      obtain ⟨i, hi, hlt⟩ := ih hx'
      refine ⟨i + 1, ?_, by simpa using Nat.succ_lt_succ hlt⟩
      rw [List.cons_append, jsIndexOf, if_neg hax, hi]
      rfl

/-! ## Permutation helpers for `moveTodoToIndex` -/

theorem perm_insertIdx {α : Type} (a : α) :
    ∀ (n : Nat) (l : List α), n ≤ l.length → (l.insertIdx n a).Perm (a :: l) := by
  intro n
  induction n with
  | zero =>
    intro l _
    rw [List.insertIdx_zero]
  | succ n ih =>
    intro l hl
    cases l with
    | nil => simp at hl
    | cons b t =>
      rw [List.insertIdx_succ_cons]
      exact ((ih t (by simpa using hl)).cons b).trans (List.Perm.swap a b t)

theorem perm_cons_eraseIdx {α : Type} :
    ∀ (l : List α) (i : Nat) (a : α), l[i]? = some a → l.Perm (a :: l.eraseIdx i) := by
  intro l
  induction l with
  | nil => intro i a h; simp at h
  | cons b t ih =>
    intro i a h
    cases i with
    | zero =>
      obtain rfl : b = a := by simpa using h
      exact List.Perm.refl _
    | succ i =>
      rw [List.getElem?_cons_succ] at h
      have := ih i a h
      exact ((this.cons b).trans (List.Perm.swap a b _))

/-! ## Invariant preservation, operation by operation -/

theorem Inv_createTodo (s : AppState) (id text createdAt : String)
    (h : Inv s) (hf : mget s.todos id = none) :
    Inv (createTodo s id text createdAt) := by
  obtain ⟨hnd, hord, hkey, hcol, htd, hst⟩ := h
  have hidord : id ∉ s.todoOrder := fun hmem => by
    have hs := hord id hmem
    rw [hf] at hs
    simp at hs
  unfold Inv createTodo
  dsimp only
  refine ⟨List.nodup_cons.mpr ⟨hidord, hnd⟩, ?_, ?_, ?_, ?_, ?_⟩
  · intro x hx
    rw [mget_mset]
    by_cases hxi : x = id
    · simp [hxi]
    · rw [if_neg hxi]
      rcases List.mem_cons.mp hx with h1 | h2
      · exact absurd h1 hxi
      · exact hord x h2
  · intro k t hk
    rw [mget_mset] at hk
    by_cases hki : k = id
    · exact hki ▸ List.mem_cons_self id _
    · rw [if_neg hki] at hk
      exact List.mem_cons_of_mem _ (hkey k t hk)
  · intro x hx
    rw [mget_mset]
    by_cases hxi : x = id
    · simp [hxi]
    · rw [if_neg hxi]
      exact hcol x hx
  · intro k t hk
    rw [mget_mset] at hk
    by_cases hki : k = id
    · rw [if_pos hki] at hk
      obtain rfl := Option.some.inj hk
      exact ⟨hki.symm, by simp⟩
    · rw [if_neg hki] at hk
      exact htd k t hk
  · intro k st hk
    obtain ⟨hsid, t0, ht0, hmem0⟩ := hst k st hk
    refine ⟨hsid, ?_⟩
    rw [mget_mset]
    by_cases hpi : st.parentId = id
    · rw [hpi, hf] at ht0
      simp at ht0
    · rw [if_neg hpi]
      exact ⟨t0, ht0, hmem0⟩

theorem parentId_cascade_map (st : SubTask) (P : Prop) [Decidable P] :
    (if P then { st with completed := true } else st).parentId = st.parentId := by
  split <;> rfl

theorem id_cascade_map (st : SubTask) (P : Prop) [Decidable P] :
    (if P then { st with completed := true } else st).id = st.id := by
  split <;> rfl

theorem Inv_toggleTodoCompleted (s : AppState) (todoId : String) (h : Inv s) :
    Inv (toggleTodoCompleted s todoId) := by
  obtain ⟨hnd, hord, hkey, hcol, htd, hst⟩ := h
  unfold toggleTodoCompleted
  cases hm : mget s.todos todoId with
  | none => exact ⟨hnd, hord, hkey, hcol, htd, hst⟩
  | some todo =>
    dsimp only
    by_cases hc : todo.completed = true
    · -- the flip goes to `completed = false`: order and sub-task mapping untouched
      have hcb : (!todo.completed) = false := by rw [hc]; rfl
      simp only [hcb, Bool.false_eq_true, if_false]
      unfold Inv
      dsimp only
      refine ⟨hnd, ?_, ?_, ?_, ?_, ?_⟩
      · intro x hx
        rw [mget_mset]
        by_cases hxi : x = todoId
        · simp [hxi]
        · rw [if_neg hxi]
          exact hord x hx
      · intro k t hk
        rw [mget_mset] at hk
        by_cases hki : k = todoId
        · exact hki ▸ hkey todoId todo hm
        · rw [if_neg hki] at hk
          exact hkey k t hk
      · intro x hx
        rw [mget_mset]
        by_cases hxi : x = todoId
        · simp [hxi]
        · rw [if_neg hxi]
          exact hcol x hx
      · intro k t hk
        rw [mget_mset] at hk
        by_cases hki : k = todoId
        · rw [if_pos hki] at hk
          obtain rfl := Option.some.inj hk
          subst hki
          obtain ⟨hid0, hsub0⟩ := htd k todo hm
          exact ⟨hid0, hsub0⟩
        · rw [if_neg hki] at hk
          exact htd k t hk
      · intro k st hk
        obtain ⟨hsid, t0, ht0, hmem0⟩ := hst k st hk
        refine ⟨hsid, ?_⟩
        rw [mget_mset]
        by_cases hpi : st.parentId = todoId
        · rw [if_pos hpi]
          refine ⟨_, rfl, ?_⟩
          rw [hpi] at ht0
          obtain rfl := Option.some.inj (ht0.symm.trans hm)
          exact hmem0
        · rw [if_neg hpi]
          exact ⟨t0, ht0, hmem0⟩
    · -- the flip goes to `completed = true`: stable repartition + cascade
      have hc' : todo.completed = false := by
        cases h2 : todo.completed
        · rfl
        · exact absurd h2 hc
      have hcb : (!todo.completed) = true := by rw [hc']; rfl
      simp only [hcb, if_true]
      have hWnotid : todoId ∉ s.todoOrder.filter (fun id => id ≠ todoId) := by
        intro hmem
        have h2 := (List.mem_filter.mp hmem).2
        simp at h2
      have hWsub : ∀ x ∈ s.todoOrder.filter (fun id => id ≠ todoId), x ∈ s.todoOrder :=
        fun x hx => (List.mem_filter.mp hx).1
      have hWne : ∀ x ∈ s.todoOrder.filter (fun id => id ≠ todoId), x ≠ todoId :=
        fun x hx => by
          have h2 := (List.mem_filter.mp hx).2
          simpa using h2
      have hWnd : (s.todoOrder.filter (fun id => id ≠ todoId)).Nodup := hnd.filter _
      unfold Inv
      dsimp only
      refine ⟨?_, ?_, ?_, ?_, ?_, ?_⟩
      · -- Nodup of unchecked ++ todoId :: checked
        rw [List.nodup_append]
        refine ⟨hWnd.filter _, List.nodup_cons.mpr ⟨?_, hWnd.filter _⟩, ?_⟩
        · intro hmem
          exact hWnotid (List.mem_of_mem_filter hmem)
        · intro x hxu
          have hxW := List.mem_of_mem_filter hxu
          have hxP := (List.mem_filter.mp hxu).2
          intro hxc
          rcases List.mem_cons.mp hxc with rfl | hxc2
          · exact hWne x hxW rfl
          · have hxQ := (List.mem_filter.mp hxc2).2
            cases hmx : mget s.todos x with
            | none => rw [hmx] at hxP; simp at hxP
            | some item =>
              rw [hmx] at hxP hxQ
              simp at hxP hxQ
              rw [hxP] at hxQ
              simp at hxQ
      · intro x hx
        rw [mget_mset]
        by_cases hxi : x = todoId
        · simp [hxi]
        · rw [if_neg hxi]
          rcases List.mem_append.mp hx with hxu | hxc
          · exact hord x (hWsub x (List.mem_of_mem_filter hxu))
          · rcases List.mem_cons.mp hxc with rfl | hxc2
            · exact absurd rfl hxi
            · exact hord x (hWsub x (List.mem_of_mem_filter hxc2))
      · intro k t hk
        rw [mget_mset] at hk
        by_cases hki : k = todoId
        · subst hki
          exact List.mem_append.mpr (Or.inr (List.mem_cons_self _ _))
        · rw [if_neg hki] at hk
          have hkW : k ∈ s.todoOrder.filter (fun id => id ≠ todoId) := by
            rw [List.mem_filter]
            exact ⟨hkey k t hk, by simpa using hki⟩
          by_cases hkc : t.completed = true
          · refine List.mem_append.mpr (Or.inr (List.mem_cons_of_mem _ ?_))
            rw [List.mem_filter]
            refine ⟨hkW, ?_⟩
            rw [hk]
            simpa using hkc
          · refine List.mem_append.mpr (Or.inl ?_)
            rw [List.mem_filter]
            refine ⟨hkW, ?_⟩
            rw [hk]
            simpa using hkc
      · intro x hx
        rw [mget_mset]
        by_cases hxi : x = todoId
        · simp [hxi]
        · rw [if_neg hxi]
          exact hcol x hx
      · intro k t hk
        rw [mget_mset] at hk
        by_cases hki : k = todoId
        · rw [if_pos hki] at hk
          obtain rfl := Option.some.inj hk
          subst hki
          obtain ⟨hid0, hsub0⟩ := htd k todo hm
          refine ⟨hid0, ?_⟩
          intro sid hsid
          obtain ⟨st, hstg, hpar⟩ := hsub0 sid hsid
          have hcg : mget (cascadeComplete s.subTasks todo.subTaskIds) sid
              = some (if sid ∈ todo.subTaskIds then { st with completed := true } else st) := by
            rw [mget_cascadeComplete, hstg]
            rfl
          exact ⟨_, hcg, by rw [parentId_cascade_map]; exact hpar⟩
        · rw [if_neg hki] at hk
          obtain ⟨hid0, hsub0⟩ := htd k t hk
          refine ⟨hid0, ?_⟩
          intro sid hsid
          obtain ⟨st, hstg, hpar⟩ := hsub0 sid hsid
          have hcg : mget (cascadeComplete s.subTasks todo.subTaskIds) sid
              = some (if sid ∈ todo.subTaskIds then { st with completed := true } else st) := by
            rw [mget_cascadeComplete, hstg]
            rfl
          exact ⟨_, hcg, by rw [parentId_cascade_map]; exact hpar⟩
      · intro k st2 hk
        rw [mget_cascadeComplete] at hk
        cases hg : mget s.subTasks k with
        | none => rw [hg] at hk; simp at hk
        | some st0 =>
          rw [hg] at hk
          simp only [Option.map_some'] at hk
          obtain rfl := Option.some.inj hk
          obtain ⟨hsid, t0, ht0, hmem0⟩ := hst k st0 hg
          refine ⟨by rw [id_cascade_map]; exact hsid, ?_⟩
          rw [parentId_cascade_map, mget_mset]
          by_cases hpi : st0.parentId = todoId
          · rw [if_pos hpi]
            refine ⟨_, rfl, ?_⟩
            rw [hpi] at ht0
            obtain rfl := Option.some.inj (ht0.symm.trans hm)
            exact hmem0
          · rw [if_neg hpi]
            exact ⟨t0, ht0, hmem0⟩

theorem Inv_deleteTodo (s : AppState) (todoId : String) (h : Inv s) :
    Inv (deleteTodo s todoId) := by
  obtain ⟨hnd, hord, hkey, hcol, htd, hst⟩ := h
  unfold deleteTodo
  cases hm : mget s.todos todoId with
  | none => exact ⟨hnd, hord, hkey, hcol, htd, hst⟩
  | some todo =>
    dsimp only
    unfold Inv
    dsimp only
    obtain ⟨hidt, hsubt⟩ := htd todoId todo hm
    refine ⟨hnd.filter _, ?_, ?_, ?_, ?_, ?_⟩
    · intro x hx
      have hxo := List.mem_of_mem_filter hx
      have hxne : ¬ x = todoId := by
        have h2 := (List.mem_filter.mp hx).2
        simpa using h2
      rw [mget_mdel, if_neg hxne]
      exact hord x hxo
    · intro k t hk
      rw [mget_mdel] at hk
      by_cases hki : k = todoId
      · rw [if_pos hki] at hk
        exact absurd hk (by simp)
      · rw [if_neg hki] at hk
        rw [List.mem_filter]
        exact ⟨hkey k t hk, by simpa using hki⟩
    · intro x hx
      have hxo := List.mem_of_mem_filter hx
      have hxne : ¬ x = todoId := by
        have h2 := (List.mem_filter.mp hx).2
        simpa using h2
      rw [mget_mdel, if_neg hxne]
      exact hcol x hxo
    · intro k t hk
      rw [mget_mdel] at hk
      by_cases hki : k = todoId
      · rw [if_pos hki] at hk
        exact absurd hk (by simp)
      · rw [if_neg hki] at hk
        obtain ⟨hid0, hsub0⟩ := htd k t hk
        refine ⟨hid0, ?_⟩
        intro sid hsid
        obtain ⟨st, hstg, hpar⟩ := hsub0 sid hsid
        have hnotdel : sid ∉ todo.subTaskIds := by
          intro hin
          obtain ⟨st2, hstg2, hpar2⟩ := hsubt sid hin
          obtain rfl := Option.some.inj (hstg.symm.trans hstg2)
          exact hki (hpar.symm.trans hpar2)
        rw [mget_mdelAll, if_neg hnotdel]
        exact ⟨st, hstg, hpar⟩
    · intro k st hk
      rw [mget_mdelAll] at hk
      by_cases hkdel : k ∈ todo.subTaskIds
      · rw [if_pos hkdel] at hk
        exact absurd hk (by simp)
      · rw [if_neg hkdel] at hk
        obtain ⟨hsid0, t0, ht0, hmem0⟩ := hst k st hk
        refine ⟨hsid0, ?_⟩
        have hpne : ¬ st.parentId = todoId := by
          intro hp
          rw [hp] at ht0
          obtain rfl := Option.some.inj (ht0.symm.trans hm)
          exact hkdel hmem0
        rw [mget_mdel, if_neg hpne]
        exact ⟨t0, ht0, hmem0⟩

theorem Inv_addGeneratedSubTasks (s : AppState) (todoId : String)
    (items : List (String × String)) (createdAt : String) (h : Inv s)
    (hnd2 : (items.map (fun item => item.1)).Nodup)
    (hfresh : ∀ item ∈ items, mget s.subTasks item.1 = none) :
    Inv (addGeneratedSubTasks s todoId items createdAt) := by
  obtain ⟨hnd, hord, hkey, hcol, htd, hst⟩ := h
  unfold addGeneratedSubTasks
  by_cases hemp : items.isEmpty = true
  · rw [if_pos hemp]
    exact ⟨hnd, hord, hkey, hcol, htd, hst⟩
  · rw [if_neg hemp]
    cases hm : mget s.todos todoId with
    | none => exact ⟨hnd, hord, hkey, hcol, htd, hst⟩
    | some todo =>
      dsimp only
      unfold Inv
      dsimp only
      obtain ⟨hidt, hsubt⟩ := htd todoId todo hm
      have hlive_not_new : ∀ sid st, mget s.subTasks sid = some st →
          sid ∉ items.map (fun item => item.1) := by
        intro sid st hstg hin
        obtain ⟨item, hit, rfl⟩ := List.mem_map.mp hin
        rw [hfresh item hit] at hstg
        exact absurd hstg (by simp)
      refine ⟨hnd, ?_, ?_, ?_, ?_, ?_⟩
      · intro x hx
        rw [mget_mset]
        by_cases hxi : x = todoId
        · simp [hxi]
        · rw [if_neg hxi]
          exact hord x hx
      · intro k t hk
        rw [mget_mset] at hk
        by_cases hki : k = todoId
        · exact hki ▸ hkey todoId todo hm
        · rw [if_neg hki] at hk
          exact hkey k t hk
      · intro x hx
        rw [mget_mset]
        by_cases hxi : x = todoId
        · simp [hxi]
        · rw [if_neg hxi]
          exact hcol x hx
      · intro k t hk
        rw [mget_mset] at hk
        by_cases hki : k = todoId
        · rw [if_pos hki] at hk
          obtain rfl := Option.some.inj hk
          subst hki
          refine ⟨hidt, ?_⟩
          intro sid hsid
          rcases List.mem_append.mp hsid with hold | hnew
          · obtain ⟨st, hstg, hpar⟩ := hsubt sid hold
            rw [mget_genSubsFold_notMem _ _ _ _ _ (hlive_not_new sid st hstg)]
            exact ⟨st, hstg, hpar⟩
          · obtain ⟨item, hit, rfl⟩ := List.mem_map.mp hnew
            rw [mget_genSubsFold_mem _ _ _ _ _ hnd2 hit]
            exact ⟨_, rfl, rfl⟩
        · rw [if_neg hki] at hk
          obtain ⟨hid0, hsub0⟩ := htd k t hk
          refine ⟨hid0, ?_⟩
          intro sid hsid
          obtain ⟨st, hstg, hpar⟩ := hsub0 sid hsid
          rw [mget_genSubsFold_notMem _ _ _ _ _ (hlive_not_new sid st hstg)]
          exact ⟨st, hstg, hpar⟩
      · intro k st2 hk
        by_cases hknew : k ∈ items.map (fun item => item.1)
        · obtain ⟨item, hit, rfl⟩ := List.mem_map.mp hknew
          rw [mget_genSubsFold_mem _ _ _ _ _ hnd2 hit] at hk
          obtain rfl := Option.some.inj hk
          refine ⟨rfl, ?_⟩
          rw [mget_mset]
          have hpar : (mkGenSubTask todoId createdAt item).parentId = todoId := rfl
          rw [hpar, if_pos rfl]
          refine ⟨_, rfl, ?_⟩
          exact List.mem_append.mpr (Or.inr (List.mem_map.mpr ⟨item, hit, rfl⟩))
        · rw [mget_genSubsFold_notMem _ _ _ _ _ hknew] at hk
          obtain ⟨hsid0, t0, ht0, hmem0⟩ := hst k st2 hk
          refine ⟨hsid0, ?_⟩
          rw [mget_mset]
          by_cases hpi : st2.parentId = todoId
          · rw [if_pos hpi]
            refine ⟨_, rfl, ?_⟩
            rw [hpi] at ht0
            obtain rfl := Option.some.inj (ht0.symm.trans hm)
            exact List.mem_append.mpr (Or.inl hmem0)
          · rw [if_neg hpi]
            exact ⟨t0, ht0, hmem0⟩

theorem Inv_toggleSubTaskCompleted (s : AppState) (subTaskId : String) (h : Inv s) :
    Inv (toggleSubTaskCompleted s subTaskId) := by
  obtain ⟨hnd, hord, hkey, hcol, htd, hst⟩ := h
  unfold toggleSubTaskCompleted
  cases hm : mget s.subTasks subTaskId with
  | none => exact ⟨hnd, hord, hkey, hcol, htd, hst⟩
  | some target =>
    dsimp only
    unfold Inv
    dsimp only
    obtain ⟨hsidt, t0, ht0, hmem0⟩ := hst subTaskId target hm
    refine ⟨hnd, hord, hkey, hcol, ?_, ?_⟩
    · intro k t hk
      obtain ⟨hid0, hsub0⟩ := htd k t hk
      refine ⟨hid0, ?_⟩
      intro sid hsid
      obtain ⟨st, hstg, hpar⟩ := hsub0 sid hsid
      rw [mget_mset]
      by_cases hsi : sid = subTaskId
      · subst hsi
        obtain rfl := Option.some.inj (hstg.symm.trans hm)
        rw [if_pos rfl]
        exact ⟨_, rfl, hpar⟩
      · rw [if_neg hsi]
        exact ⟨st, hstg, hpar⟩
    · intro k st2 hk
      rw [mget_mset] at hk
      by_cases hki : k = subTaskId
      · rw [if_pos hki] at hk
        obtain rfl := Option.some.inj hk
        subst hki
        exact ⟨hsidt, t0, ht0, hmem0⟩
      · rw [if_neg hki] at hk
        exact hst k st2 hk

theorem Inv_updateTodoText (s : AppState) (todoId text : String) (h : Inv s) :
    Inv (updateTodoText s todoId text) := by
  obtain ⟨hnd, hord, hkey, hcol, htd, hst⟩ := h
  unfold updateTodoText
  by_cases he : jsTrim text = ""
  · rw [if_pos he]
    exact ⟨hnd, hord, hkey, hcol, htd, hst⟩
  · rw [if_neg he]
    cases hm : mget s.todos todoId with
    | none => exact ⟨hnd, hord, hkey, hcol, htd, hst⟩
    | some todo =>
      dsimp only
      unfold Inv
      dsimp only
      obtain ⟨hidt, hsubt⟩ := htd todoId todo hm
      refine ⟨hnd, ?_, ?_, ?_, ?_, ?_⟩
      · intro x hx
        rw [mget_mset]
        by_cases hxi : x = todoId
        · simp [hxi]
        · rw [if_neg hxi]
          exact hord x hx
      · intro k t hk
        rw [mget_mset] at hk
        by_cases hki : k = todoId
        · exact hki ▸ hkey todoId todo hm
        · rw [if_neg hki] at hk
          exact hkey k t hk
      · intro x hx
        rw [mget_mset]
        by_cases hxi : x = todoId
        · simp [hxi]
        · rw [if_neg hxi]
          exact hcol x hx
      · intro k t hk
        rw [mget_mset] at hk
        by_cases hki : k = todoId
        · rw [if_pos hki] at hk
          obtain rfl := Option.some.inj hk
          subst hki
          exact ⟨hidt, hsubt⟩
        · rw [if_neg hki] at hk
          exact htd k t hk
      · intro k st hk
        obtain ⟨hsid0, t1, ht1, hmem1⟩ := hst k st hk
        refine ⟨hsid0, ?_⟩
        rw [mget_mset]
        by_cases hpi : st.parentId = todoId
        · rw [if_pos hpi]
          refine ⟨_, rfl, ?_⟩
          rw [hpi] at ht1
          obtain rfl := Option.some.inj (ht1.symm.trans hm)
          exact hmem1
        · rw [if_neg hpi]
          exact ⟨t1, ht1, hmem1⟩

theorem Inv_updateSubTaskText (s : AppState) (subTaskId text : String) (h : Inv s) :
    Inv (updateSubTaskText s subTaskId text) := by
  obtain ⟨hnd, hord, hkey, hcol, htd, hst⟩ := h
  unfold updateSubTaskText
  by_cases he : jsTrim text = ""
  · rw [if_pos he]
    exact ⟨hnd, hord, hkey, hcol, htd, hst⟩
  · rw [if_neg he]
    cases hm : mget s.subTasks subTaskId with
    | none => exact ⟨hnd, hord, hkey, hcol, htd, hst⟩
    | some target =>
      dsimp only
      unfold Inv
      dsimp only
      obtain ⟨hsidt, t0, ht0, hmem0⟩ := hst subTaskId target hm
      refine ⟨hnd, hord, hkey, hcol, ?_, ?_⟩
      · intro k t hk
        obtain ⟨hid0, hsub0⟩ := htd k t hk
        refine ⟨hid0, ?_⟩
        intro sid hsid
        obtain ⟨st, hstg, hpar⟩ := hsub0 sid hsid
        rw [mget_mset]
        by_cases hsi : sid = subTaskId
        · subst hsi
          obtain rfl := Option.some.inj (hstg.symm.trans hm)
          rw [if_pos rfl]
          exact ⟨_, rfl, hpar⟩
        · rw [if_neg hsi]
          exact ⟨st, hstg, hpar⟩
      · intro k st2 hk
        rw [mget_mset] at hk
        by_cases hki : k = subTaskId
        · rw [if_pos hki] at hk
          obtain rfl := Option.some.inj hk
          subst hki
          exact ⟨hsidt, t0, ht0, hmem0⟩
        · rw [if_neg hki] at hk
          exact hst k st2 hk

theorem Inv_updateSettings (s : AppState) (p : SettingsPatch) (h : Inv s) :
    Inv (updateSettings s p) := by
  obtain ⟨hnd, hord, hkey, hcol, htd, hst⟩ := h
  exact ⟨hnd, hord, hkey, hcol, htd, hst⟩

theorem Inv_clearSettings (s : AppState) (h : Inv s) : Inv (clearSettings s) := by
  obtain ⟨hnd, hord, hkey, hcol, htd, hst⟩ := h
  exact ⟨hnd, hord, hkey, hcol, htd, hst⟩

theorem Inv_toggleTodoCollapsed (s : AppState) (todoId : String) (h : Inv s) :
    Inv (toggleTodoCollapsed s todoId) := by
  obtain ⟨hnd, hord, hkey, hcol, htd, hst⟩ := h
  unfold toggleTodoCollapsed
  cases hm : mget s.todos todoId with
  | none => exact ⟨hnd, hord, hkey, hcol, htd, hst⟩
  | some todo =>
    dsimp only
    by_cases hcin : s.collapsedTodoIds.contains todoId
    · rw [if_pos hcin]
      refine ⟨hnd, hord, hkey, ?_, htd, hst⟩
      intro x hx
      exact hcol x (List.mem_of_mem_filter hx)
    · rw [if_neg hcin]
      refine ⟨hnd, hord, hkey, ?_, htd, hst⟩
      intro x hx
      rcases List.mem_append.mp hx with hx1 | hx2
      · exact hcol x hx1
      · have hxe : x = todoId := by simpa using hx2
        rw [hxe, hm]
        rfl

theorem Inv_deleteSubTask (s : AppState) (subTaskId : String) (h : Inv s) :
    Inv (deleteSubTask s subTaskId) := by
  obtain ⟨hnd, hord, hkey, hcol, htd, hst⟩ := h
  unfold deleteSubTask
  cases hm : mget s.subTasks subTaskId with
  | none => exact ⟨hnd, hord, hkey, hcol, htd, hst⟩
  | some target =>
    dsimp only
    obtain ⟨hsidt, t0, ht0, hmem0⟩ := hst subTaskId target hm
    cases hp : mget s.todos target.parentId with
    | none =>
      rw [hp] at ht0
      exact absurd ht0 (by simp)
    | some parent =>
      obtain rfl := Option.some.inj (hp.symm.trans ht0)
      dsimp only
      unfold Inv
      dsimp only
      obtain ⟨hpid, hpsub⟩ := htd target.parentId parent hp
      refine ⟨hnd, ?_, ?_, ?_, ?_, ?_⟩
      · intro x hx
        rw [mget_mset]
        by_cases hxi : x = parent.id
        · simp [hxi]
        · rw [if_neg hxi]
          exact hord x hx
      · intro k t hk
        rw [mget_mset] at hk
        by_cases hki : k = parent.id
        · rw [hki, hpid]
          exact hkey target.parentId parent hp
        · rw [if_neg hki] at hk
          exact hkey k t hk
      · intro x hx
        rw [mget_mset]
        by_cases hxi : x = parent.id
        · simp [hxi]
        · rw [if_neg hxi]
          exact hcol x hx
      · intro k t hk
        rw [mget_mset] at hk
        by_cases hki : k = parent.id
        · rw [if_pos hki] at hk
          obtain rfl := Option.some.inj hk
          subst hki
          refine ⟨hpid.symm ▸ rfl, ?_⟩
          intro sid hsid
          have hsid2 := List.mem_filter.mp hsid
          have hsne : ¬ sid = subTaskId := by simpa using hsid2.2
          obtain ⟨st, hstg, hpar⟩ := hpsub sid hsid2.1
          rw [mget_mdel, if_neg hsne]
          refine ⟨st, hstg, ?_⟩
          rw [hpar, hpid]
        · rw [if_neg hki] at hk
          obtain ⟨hid0, hsub0⟩ := htd k t hk
          refine ⟨hid0, ?_⟩
          intro sid hsid
          obtain ⟨st, hstg, hpar⟩ := hsub0 sid hsid
          have hsne : ¬ sid = subTaskId := by
            intro he
            subst he
            obtain rfl := Option.some.inj (hstg.symm.trans hm)
            exact hki (hpar.symm.trans hpid.symm)
          rw [mget_mdel, if_neg hsne]
          exact ⟨st, hstg, hpar⟩
      · intro k st2 hk
        rw [mget_mdel] at hk
        by_cases hkd : k = subTaskId
        · rw [if_pos hkd] at hk
          exact absurd hk (by simp)
        · rw [if_neg hkd] at hk
          obtain ⟨hsid2, t1, ht1, hmem1⟩ := hst k st2 hk
          refine ⟨hsid2, ?_⟩
          rw [mget_mset]
          by_cases hpi : st2.parentId = parent.id
          · rw [if_pos hpi]
            refine ⟨_, rfl, ?_⟩
            rw [hpi, hpid] at ht1
            obtain rfl := Option.some.inj (ht1.symm.trans hp)
            rw [List.mem_filter]
            refine ⟨hmem1, by simpa using hkd⟩
          · rw [if_neg hpi]
            exact ⟨t1, ht1, hmem1⟩

theorem filterIdxFrom_keepFirsts (ord full : List String) :
    ∀ (suf pre seen : List String), full = pre ++ suf →
      (∀ x, ord.contains x = true → (x ∈ seen ↔ x ∈ pre)) →
      filterIdxFrom (fun index id => ord.contains id && (jsIndexOf full id == some index))
          pre.length suf
        = keepFirsts seen (suf.filter (fun id => ord.contains id)) := by
  intro suf
  induction suf with
  | nil => intro pre seen _ _; rfl
  | cons x suf2 ih =>
    intro pre seen hfull hseen
    have hlen : (pre ++ [x]).length = pre.length + 1 := by simp
    have hfull2 : full = (pre ++ [x]) ++ suf2 := by
      rw [hfull, List.append_assoc]
      rfl
    simp only [filterIdxFrom, List.filter_cons]
    by_cases hcont : ord.contains x = true
    · rw [if_pos hcont]
      by_cases hxpre : x ∈ pre
      · obtain ⟨i, hi, hlt⟩ := jsIndexOf_mem_front pre (x :: suf2) x hxpre
        have hfalse : (ord.contains x && (jsIndexOf full x == some pre.length)) = false := by
          rw [hfull, hi, hcont, Bool.true_and, beq_eq_false_iff_ne]
          simp only [ne_eq, Option.some.injEq]
          omega
        simp only [hfalse, Bool.false_eq_true, if_false]
        have hxseen : seen.contains x = true := by
          simpa using (hseen x hcont).mpr hxpre
        rw [keepFirsts, if_pos hxseen]
        have ih2 := ih (pre ++ [x]) seen hfull2 ?_
        · rw [hlen] at ih2
          exact ih2
        · intro y hy
          rw [hseen y hy]
          constructor
          · intro hyp
            exact List.mem_append.mpr (Or.inl hyp)
          · intro hyp
            rcases List.mem_append.mp hyp with h1 | h2
            · exact h1
            · have : y = x := by simpa using h2
              rw [this]
              exact hxpre
      · have htrue : (ord.contains x && (jsIndexOf full x == some pre.length)) = true := by
          rw [hfull, jsIndexOf_append_self pre suf2 x hxpre, hcont, Bool.true_and]
          simp
        simp only [htrue, if_true]
        have hxseen : seen.contains x = false := by
          have := hseen x hcont
          simp only [hxpre, iff_false] at this
          simpa using this
        rw [keepFirsts, if_neg (by rw [hxseen]; exact Bool.false_ne_true)]
        have ih2 := ih (pre ++ [x]) (x :: seen) hfull2 ?_
        · rw [hlen] at ih2
          rw [ih2]
        · intro y hy
          constructor
          · intro hyp
            rcases List.mem_cons.mp hyp with rfl | h2
            · exact List.mem_append.mpr (Or.inr (List.mem_singleton.mpr rfl))
            · exact List.mem_append.mpr (Or.inl ((hseen y hy).mp h2))
          · intro hyp
            rcases List.mem_append.mp hyp with h1 | h2
            · exact List.mem_cons_of_mem _ ((hseen y hy).mpr h1)
            · have : y = x := by simpa using h2
              rw [this]
              exact List.mem_cons_self _ _
    · rw [if_neg hcont]
      have hc2 : ord.contains x = false := Bool.eq_false_iff.mpr hcont
      have hfalse : (ord.contains x && (jsIndexOf full x == some pre.length)) = false := by
        rw [hc2, Bool.false_and]
      simp only [hfalse, Bool.false_eq_true, if_false]
      have ih2 := ih (pre ++ [x]) seen hfull2 ?_
      · rw [hlen] at ih2
        exact ih2
      · intro y hy
        rw [hseen y hy]
        constructor
        · intro hyp
          exact List.mem_append.mpr (Or.inl hyp)
        · intro hyp
          rcases List.mem_append.mp hyp with h1 | h2
          · exact h1
          · have hyx : y = x := by simpa using h2
            rw [hyx] at hy
            exact absurd hy hcont

theorem dedupedValid_spec (ord ids : List String) :
    filterIdxFrom (fun index id => ord.contains id && (jsIndexOf ids id == some index)) 0 ids
      = keepFirsts [] (ids.filter (fun id => ord.contains id)) := by
  have h := filterIdxFrom_keepFirsts ord ids ids [] [] rfl (by simp)
  simpa using h

/-- Replacing `todos` by a pointwise priority rewrite and `todoOrder` by any
duplicate-free list with the same members preserves `Inv`. -/
theorem Inv_replace_aux (s : AppState) (nextTodos : List (String × Todo))
    (newOrder : List String) (g : String → Int → Int)
    (hget : ∀ k, mget nextTodos k
      = (mget s.todos k).map (fun t => { t with priority := g k t.priority }))
    (hond : newOrder.Nodup) (hmem : ∀ x, x ∈ newOrder ↔ x ∈ s.todoOrder)
    (h : Inv s) :
    Inv { s with todos := nextTodos, todoOrder := newOrder } := by
  obtain ⟨hnd, hord, hkey, hcol, htd, hst⟩ := h
  unfold Inv
  dsimp only
  refine ⟨hond, ?_, ?_, ?_, ?_, ?_⟩
  · intro x hx
    rw [hget]
    have hi := hord x ((hmem x).mp hx)
    cases hg : mget s.todos x with
    | none => rw [hg] at hi; exact absurd hi (by simp)
    | some t => rfl
  · intro k t hk
    rw [hget] at hk
    cases hg : mget s.todos k with
    | none => rw [hg] at hk; exact absurd hk (by simp)
    | some t0 => exact (hmem k).mpr (hkey k t0 hg)
  · intro x hx
    rw [hget]
    have hi := hcol x hx
    cases hg : mget s.todos x with
    | none => rw [hg] at hi; exact absurd hi (by simp)
    | some t => rfl
  · intro k t hk
    rw [hget] at hk
    cases hg : mget s.todos k with
    | none => rw [hg] at hk; exact absurd hk (by simp)
    | some t0 =>
      rw [hg] at hk
      simp only [Option.map_some'] at hk
      obtain rfl := Option.some.inj hk
      obtain ⟨hid0, hsub0⟩ := htd k t0 hg
      exact ⟨hid0, hsub0⟩
  · intro k st hk
    obtain ⟨hsid0, t1, ht1, hmem1⟩ := hst k st hk
    refine ⟨hsid0, ?_⟩
    rw [hget, ht1]
    exact ⟨_, rfl, hmem1⟩

theorem mget_map_eta (m : List (String × Todo)) (k : String) :
    mget m k = (mget m k).map (fun t => { t with priority := t.priority }) := by
  cases mget m k <;> rfl

/-- The sanitized candidate of `reorderTodos`, written as the spec words it:
restrict the candidate to ids currently in `ord`, keeping only each id's
first occurrence. -/
def specSanitizedCandidate (ord cand : List String) : List String :=
  keepFirsts [] (cand.filter (fun id => ord.contains id))

theorem specSanitizedCandidate_mem (ord cand : List String) :
    ∀ x, x ∈ specSanitizedCandidate ord cand → x ∈ ord := by
  intro x hx
  have h2 := ((mem_keepFirsts _ _ _).mp hx).1
  have h3 := (List.mem_filter.mp h2).2
  simpa using h3

theorem reorder_newOrder_nodup (ord cand : List String) (hnd : ord.Nodup) :
    (specSanitizedCandidate ord cand
      ++ ord.filter (fun id => ¬ (specSanitizedCandidate ord cand).contains id)).Nodup := by
  rw [List.nodup_append]
  refine ⟨nodup_keepFirsts _ _, hnd.filter _, ?_⟩
  intro x hx1 hx2
  have h2 := (List.mem_filter.mp hx2).2
  simp only [decide_not, Bool.not_eq_true', decide_eq_false_iff_not] at h2
  exact h2 (by simpa using hx1)

theorem reorder_newOrder_mem (ord cand : List String) :
    ∀ x, x ∈ specSanitizedCandidate ord cand
      ++ ord.filter (fun id => ¬ (specSanitizedCandidate ord cand).contains id)
      ↔ x ∈ ord := by
  intro x
  constructor
  · intro hx
    rcases List.mem_append.mp hx with h1 | h2
    · exact specSanitizedCandidate_mem ord cand x h1
    · exact List.mem_of_mem_filter h2
  · intro hx
    by_cases hxdv : x ∈ specSanitizedCandidate ord cand
    · exact List.mem_append.mpr (Or.inl hxdv)
    · refine List.mem_append.mpr (Or.inr ?_)
      rw [List.mem_filter]
      refine ⟨hx, ?_⟩
      simp only [decide_not, Bool.not_eq_true', decide_eq_false_iff_not]
      simpa using hxdv

theorem reorderTodos_todoOrder (s : AppState) (ids : List String)
    (priorities : Option (List (String × Int))) :
    (reorderTodos s ids priorities).todoOrder
      = specSanitizedCandidate s.todoOrder ids
        ++ s.todoOrder.filter
            (fun id => ¬ (specSanitizedCandidate s.todoOrder ids).contains id) := by
  unfold reorderTodos
  dsimp only
  rw [dedupedValid_spec]
  cases priorities <;> rfl

theorem Inv_reorderTodos (s : AppState) (ids : List String)
    (priorities : Option (List (String × Int))) (h : Inv s) :
    Inv (reorderTodos s ids priorities) := by
  have hnd := h.1
  unfold reorderTodos
  dsimp only
  rw [dedupedValid_spec]
  have hond := reorder_newOrder_nodup s.todoOrder ids hnd
  have hmemo := reorder_newOrder_mem s.todoOrder ids
  rw [show keepFirsts [] (ids.filter (fun id => s.todoOrder.contains id))
      = specSanitizedCandidate s.todoOrder ids from rfl]
  cases priorities with
  | none =>
    dsimp only
    exact Inv_replace_aux s s.todos _ (fun _ d => d)
      (fun k => mget_map_eta s.todos k) hond hmemo h
  | some ps =>
    dsimp only
    exact Inv_replace_aux s (prioFold ps s.todos) _ (fun k d => lastPrio ps k d)
      (fun k => mget_prioFold ps s.todos k) hond hmemo h

theorem Inv_moveTodoToIndex (s : AppState) (tid : String) (n : Int) (h : Inv s) :
    Inv (moveTodoToIndex s tid n) := by
  have hnd := h.1
  unfold moveTodoToIndex
  by_cases hneg : n < 0
  · rw [if_pos hneg]
    exact h
  · rw [if_neg hneg]
    cases hj : jsIndexOf s.todoOrder tid with
    | none => exact h
    | some i =>
      dsimp only
      by_cases hgt : n > (s.todoOrder.length : Int)
      · rw [if_pos hgt]
        exact h
      · rw [if_neg hgt]
        obtain ⟨hlt, hget⟩ := jsIndexOf_getElem s.todoOrder tid i hj
        have hperm1 : s.todoOrder.Perm (tid :: s.todoOrder.eraseIdx i) :=
          perm_cons_eraseIdx _ i tid (by rw [List.getElem?_eq_getElem hlt, hget])
        have hlen : (s.todoOrder.eraseIdx i).length = s.todoOrder.length - 1 := by
          rw [List.length_eraseIdx]
          simp [hlt]
        have hadj : (if (i : Int) < n then n.toNat - 1 else n.toNat)
            ≤ (s.todoOrder.eraseIdx i).length := by
          rw [hlen]
          have h1 : n ≤ (s.todoOrder.length : Int) := not_lt.mp hgt
          by_cases hc : (i : Int) < n
          · rw [if_pos hc]
            omega
          · rw [if_neg hc]
            omega
        have hperm2 := perm_insertIdx tid _ _ hadj
        have hperm := hperm2.trans hperm1.symm
        exact Inv_replace_aux s s.todos _ (fun _ d => d)
          (fun k => mget_map_eta s.todos k) (hperm.nodup_iff.mpr hnd)
          (fun x => hperm.mem_iff) h

/-! ## Claim theorems -/

/-- C1: starting from any state satisfying the §3 invariants (`Inv`), every
State Engine operation — with the program's freshness guarantee for
`newId()` values (`opFresh`) — returns a state satisfying them again:
`todoOrder` stays a duplicate-free permutation of exactly the todo mapping's
keys, `collapsedTodoIds` stays inside the todo mapping, sub-task ownership
stays bidirectionally consistent, and `deleteTodo` removes all the deleted
todo's sub-tasks together with its `todoOrder` and `collapsedTodoIds`
entries, leaving no orphaned sub-tasks. -/
theorem claim_C1_state_engine_invariants (op : Op) (s : AppState)
    (hInv : Inv s) (hFresh : opFresh op s) :
    Inv (applyOp op s)
    ∧ (∀ tid todo, op = Op.deleteTodo tid → mget s.todos tid = some todo →
        (∀ sid ∈ todo.subTaskIds, mget (applyOp op s).subTasks sid = none)
        ∧ tid ∉ (applyOp op s).todoOrder
        ∧ tid ∉ (applyOp op s).collapsedTodoIds
        ∧ mget (applyOp op s).todos tid = none) := by
  constructor
  · cases op with
    | createTodo id text createdAt => exact Inv_createTodo s id text createdAt hInv hFresh
    | toggleTodoCompleted todoId => exact Inv_toggleTodoCompleted s todoId hInv
    | deleteTodo todoId => exact Inv_deleteTodo s todoId hInv
    | addGeneratedSubTasks todoId items createdAt =>
      exact Inv_addGeneratedSubTasks s todoId items createdAt hInv hFresh.1 hFresh.2
    | toggleSubTaskCompleted subTaskId => exact Inv_toggleSubTaskCompleted s subTaskId hInv
    | updateTodoText todoId text => exact Inv_updateTodoText s todoId text hInv
    | updateSubTaskText subTaskId text => exact Inv_updateSubTaskText s subTaskId text hInv
    | deleteSubTask subTaskId => exact Inv_deleteSubTask s subTaskId hInv
    | updateSettings p => exact Inv_updateSettings s p hInv
    | clearSettings => exact Inv_clearSettings s hInv
    | reorderTodos ids ps => exact Inv_reorderTodos s ids ps hInv
    | moveTodoToIndex tid n => exact Inv_moveTodoToIndex s tid n hInv
    | toggleTodoCollapsed todoId => exact Inv_toggleTodoCollapsed s todoId hInv
  · intro tid todo hop hm
    subst hop
    have hd : applyOp (Op.deleteTodo tid) s
        = { s with
            todos := mdel s.todos tid
            subTasks := mdelAll s.subTasks todo.subTaskIds
            todoOrder := s.todoOrder.filter (fun id => id ≠ tid)
            collapsedTodoIds := s.collapsedTodoIds.filter (fun id => id ≠ tid) } := by
      show deleteTodo s tid = _
      unfold deleteTodo
      rw [hm]
    rw [hd]
    refine ⟨?_, ?_, ?_, ?_⟩
    · intro sid hsid
      show mget (mdelAll s.subTasks todo.subTaskIds) sid = none
      rw [mget_mdelAll, if_pos hsid]
    · intro hmem
      have h2 := (List.mem_filter.mp hmem).2
      simp at h2
    · intro hmem
      have h2 := (List.mem_filter.mp hmem).2
      simp at h2
    · show mget (mdel s.todos tid) tid = none
      rw [mget_mdel, if_pos rfl]

/-- A small concrete state used to instantiate the claim theorems: one todo
`"t1"` owning one sub-task `"s1"`, collapsed, with a second completed todo
`"t2"`. -/
def witnessState : AppState :=
  { todos :=
      [("t1", { id := "t1", text := "alpha", priority := 0, completed := false
                createdAt := "2024-01-01", subTaskIds := ["s1"] }),
       ("t2", { id := "t2", text := "beta", priority := 2, completed := true
                createdAt := "2024-01-02", subTaskIds := [] })]
    subTasks :=
      [("s1", { id := "s1", parentId := "t1", text := "gamma", completed := false
                createdAt := "2024-01-03", source := "ai" })]
    todoOrder := ["t1", "t2"]
    collapsedTodoIds := ["t1"]
    settings := { openaiApiKey := "", model := "gpt-4.1-mini" } }

theorem claim_C1_state_engine_invariants_witness :
    Inv witnessState
    ∧ (Inv (applyOp (Op.deleteTodo "t1") witnessState)
      ∧ (∀ tid todo, Op.deleteTodo "t1" = Op.deleteTodo tid →
            mget witnessState.todos tid = some todo →
          (∀ sid ∈ todo.subTaskIds,
              mget (applyOp (Op.deleteTodo "t1") witnessState).subTasks sid = none)
          ∧ tid ∉ (applyOp (Op.deleteTodo "t1") witnessState).todoOrder
          ∧ tid ∉ (applyOp (Op.deleteTodo "t1") witnessState).collapsedTodoIds
          ∧ mget (applyOp (Op.deleteTodo "t1") witnessState).todos tid = none)) :=
  ⟨checkInv_implies (by decide),
   claim_C1_state_engine_invariants (Op.deleteTodo "t1") witnessState
     (checkInv_implies (by decide)) True.intro⟩

/-- C9: every State Engine operation invoked with an id that does not exist
in the relevant mapping returns the state unchanged — no failure, no partial
update (for `moveTodoToIndex` this relies on the §3 invariant tying
`todoOrder` to the todo mapping). -/
theorem claim_C9_missing_id_noop (s : AppState) (hInv : Inv s) (todoId subTaskId : String) :
    (mget s.todos todoId = none →
      toggleTodoCompleted s todoId = s
      ∧ deleteTodo s todoId = s
      ∧ (∀ items createdAt, addGeneratedSubTasks s todoId items createdAt = s)
      ∧ (∀ text, updateTodoText s todoId text = s)
      ∧ (∀ n : Int, moveTodoToIndex s todoId n = s)
      ∧ toggleTodoCollapsed s todoId = s)
    ∧ (mget s.subTasks subTaskId = none →
      toggleSubTaskCompleted s subTaskId = s
      ∧ (∀ text, updateSubTaskText s subTaskId text = s)
      ∧ deleteSubTask s subTaskId = s) := by
  constructor
  · intro h
    have hnotin : todoId ∉ s.todoOrder := fun hmem => by
      have h2 := hInv.2.1 todoId hmem
      rw [h] at h2
      simp at h2
    refine ⟨?_, ?_, ?_, ?_, ?_, ?_⟩
    · unfold toggleTodoCompleted
      rw [h]
    · unfold deleteTodo
      rw [h]
    · intro items createdAt
      unfold addGeneratedSubTasks
      by_cases he : items.isEmpty = true
      · rw [if_pos he]
      · rw [if_neg he, h]
    · intro text
      unfold updateTodoText
      by_cases he : jsTrim text = ""
      · rw [if_pos he]
      · rw [if_neg he, h]
    · intro n
      unfold moveTodoToIndex
      by_cases hneg : n < 0
      · rw [if_pos hneg]
      · rw [if_neg hneg, (jsIndexOf_eq_none _ _).mpr hnotin]
    · unfold toggleTodoCollapsed
      rw [h]
  · intro h
    refine ⟨?_, ?_, ?_⟩
    · unfold toggleSubTaskCompleted
      rw [h]
    · intro text
      unfold updateSubTaskText
      by_cases he : jsTrim text = ""
      · rw [if_pos he]
      · rw [if_neg he, h]
    · unfold deleteSubTask
      rw [h]

theorem claim_C9_missing_id_noop_witness :
    Inv witnessState
    ∧ mget witnessState.todos "zz" = none
    ∧ mget witnessState.subTasks "zz" = none
    ∧ toggleTodoCompleted witnessState "zz" = witnessState
    ∧ deleteSubTask witnessState "zz" = witnessState := by
  have hI : Inv witnessState := checkInv_implies (by decide)
  have h := claim_C9_missing_id_noop witnessState hI "zz" "zz"
  exact ⟨hI, rfl, rfl, (h.1 rfl).1, (h.2 rfl).2.2⟩

/-- Is `id` a currently incomplete todo of `s`? (predicate of the completion
repartition). -/
def isIncompleteIn (s : AppState) (id : String) : Bool :=
  match mget s.todos id with
  | some t => !t.completed
  | none => false

/-- Is `id` a currently complete todo of `s`? -/
def isCompleteIn (s : AppState) (id : String) : Bool :=
  match mget s.todos id with
  | some t => t.completed
  | none => false

/-- C2: `toggleTodoCompleted` flips the todo's `completed` flag and touches no
other todo.  When the flip completes the todo, `todoOrder` is repartitioned
into [other incomplete todos in previous relative order, this todo, complete
todos in previous relative order] and every not-yet-completed sub-task of the
todo becomes completed; when the flip un-completes it, `todoOrder` and the
whole sub-task mapping (including previously cascaded children) are left
unchanged. -/
theorem claim_C2_toggle_completed (s : AppState) (todoId : String) (todo : Todo)
    (hm : mget s.todos todoId = some todo) :
    (mget (toggleTodoCompleted s todoId).todos todoId
        = some { todo with completed := !todo.completed })
    ∧ (∀ k, k ≠ todoId →
        mget (toggleTodoCompleted s todoId).todos k = mget s.todos k)
    ∧ (todo.completed = false →
        (toggleTodoCompleted s todoId).todoOrder
          = s.todoOrder.filter (fun id => decide (id ≠ todoId) && isIncompleteIn s id)
            ++ todoId :: s.todoOrder.filter (fun id => decide (id ≠ todoId) && isCompleteIn s id)
        ∧ ∀ k, mget (toggleTodoCompleted s todoId).subTasks k
            = (mget s.subTasks k).map
                (fun st => if k ∈ todo.subTaskIds then { st with completed := true } else st))
    ∧ (todo.completed = true →
        (toggleTodoCompleted s todoId).todoOrder = s.todoOrder
        ∧ (toggleTodoCompleted s todoId).subTasks = s.subTasks)
    ∧ (toggleTodoCompleted s todoId).collapsedTodoIds = s.collapsedTodoIds
    ∧ (toggleTodoCompleted s todoId).settings = s.settings := by
  unfold toggleTodoCompleted
  rw [hm]
  dsimp only
  refine ⟨?_, ?_, ?_, ?_, ?_, ?_⟩
  · rw [mget_mset, if_pos rfl]
  · intro k hk
    rw [mget_mset, if_neg hk]
  · intro hc
    have hcb : (!todo.completed) = true := by rw [hc]; rfl
    simp only [hcb, if_true]
    constructor
    · rw [List.filter_filter, List.filter_filter]
      have hcongr : ∀ (p : String → Bool),
          s.todoOrder.filter (fun a => p a && decide (a ≠ todoId))
            = s.todoOrder.filter (fun a => decide (a ≠ todoId) && p a) :=
        fun p => List.filter_congr (fun a _ => Bool.and_comm _ _)
      rw [hcongr, hcongr]
      rfl
    · intro k
      exact mget_cascadeComplete todo.subTaskIds s.subTasks k
  · intro hc
    have hcb : (!todo.completed) = false := by rw [hc]; rfl
    simp only [hcb, Bool.false_eq_true, if_false]
    exact ⟨trivial, trivial⟩
  · rfl
  · rfl

/-- The state of the spec's completion-partition and cascade examples:
todos A (incomplete, one incomplete sub-task), B (incomplete), C (complete)
in order [A, B, C]. -/
def exC2 : AppState :=
  { todos :=
      [("A", { id := "A", text := "a", priority := 0, completed := false
               createdAt := "t", subTaskIds := ["sa"] }),
       ("B", { id := "B", text := "b", priority := 0, completed := false
               createdAt := "t", subTaskIds := [] }),
       ("C", { id := "C", text := "c", priority := 0, completed := true
               createdAt := "t", subTaskIds := [] })]
    subTasks :=
      [("sa", { id := "sa", parentId := "A", text := "sub", completed := false
                createdAt := "t", source := "ai" })]
    todoOrder := ["A", "B", "C"]
    collapsedTodoIds := []
    settings := { openaiApiKey := "", model := "gpt-4.1-mini" } }

def exTodoA : Todo :=
  { id := "A", text := "a", priority := 0, completed := false
    createdAt := "t", subTaskIds := ["sa"] }

theorem claim_C2_toggle_completed_witness :
    mget exC2.todos "A" = some exTodoA
    ∧ exTodoA.completed = false
    ∧ (toggleTodoCompleted exC2 "A").todoOrder = ["B", "A", "C"]
    ∧ mget (toggleTodoCompleted exC2 "A").subTasks "sa"
        = some { id := "sa", parentId := "A", text := "sub", completed := true
                 createdAt := "t", source := "ai" }
    ∧ (toggleTodoCompleted (toggleTodoCompleted exC2 "A") "A").subTasks
        = (toggleTodoCompleted exC2 "A").subTasks := by
  have h := claim_C2_toggle_completed exC2 "A" exTodoA rfl
  refine ⟨rfl, rfl, ?_, ?_, ?_⟩
  · rw [(h.2.2.1 rfl).1]
    rfl
  · rw [(h.2.2.1 rfl).2 "sa"]
    rfl
  · have h2 := claim_C2_toggle_completed (toggleTodoCompleted exC2 "A") "A"
      { exTodoA with completed := true } h.1
    exact (h2.2.2.2.1 rfl).2

/-- C3: `reorderTodos` yields exactly the sanitized candidate (restricted to
current ids, first occurrence wins) followed by the remaining current ids in
their original relative order — a total duplicate-free permutation of the
current todos even for partial, stale or duplicate-containing candidates.
Supplied priorities are written through verbatim, with no clamping
re-applied. -/
theorem claim_C3_reorder_sanitization (s : AppState) (ids : List String)
    (priorities : Option (List (String × Int))) :
    (reorderTodos s ids priorities).todoOrder
      = specSanitizedCandidate s.todoOrder ids
        ++ s.todoOrder.filter
            (fun id => ¬ (specSanitizedCandidate s.todoOrder ids).contains id)
    ∧ (s.todoOrder.Nodup →
        (reorderTodos s ids priorities).todoOrder.Nodup
        ∧ ∀ x, x ∈ (reorderTodos s ids priorities).todoOrder ↔ x ∈ s.todoOrder)
    ∧ (∀ ps, priorities = some ps → (ps.map (fun pr => pr.1)).Nodup →
        ∀ id p todo, (id, p) ∈ ps → mget s.todos id = some todo →
          mget (reorderTodos s ids priorities).todos id = some { todo with priority := p })
    ∧ (reorderTodos s ids priorities).subTasks = s.subTasks
    ∧ (reorderTodos s ids priorities).collapsedTodoIds = s.collapsedTodoIds := by
  refine ⟨reorderTodos_todoOrder s ids priorities, ?_, ?_, ?_, ?_⟩
  · intro hnd
    rw [reorderTodos_todoOrder]
    exact ⟨reorder_newOrder_nodup s.todoOrder ids hnd, reorder_newOrder_mem s.todoOrder ids⟩
  · intro ps hps hnd2 id p todo hmem hmg
    subst hps
    unfold reorderTodos
    dsimp only
    rw [mget_prioFold, hmg]
    simp only [Option.map_some']
    rw [lastPrio_mem ps id p hnd2 hmem todo.priority]
  · cases priorities <;> rfl
  · cases priorities <;> rfl

/-- The state of the spec's reorder-sanitization example: current order
[A, B, C, D]. -/
def exC3 : AppState :=
  { todos :=
      [("A", { id := "A", text := "a", priority := 0, completed := false
               createdAt := "t", subTaskIds := [] }),
       ("B", { id := "B", text := "b", priority := 0, completed := false
               createdAt := "t", subTaskIds := [] }),
       ("C", { id := "C", text := "c", priority := 0, completed := false
               createdAt := "t", subTaskIds := [] }),
       ("D", { id := "D", text := "d", priority := 0, completed := false
               createdAt := "t", subTaskIds := [] })]
    subTasks := []
    todoOrder := ["A", "B", "C", "D"]
    collapsedTodoIds := []
    settings := { openaiApiKey := "", model := "gpt-4.1-mini" } }

theorem claim_C3_reorder_sanitization_witness :
    (reorderTodos exC3 ["C", "C", "Z", "A"] none).todoOrder = ["C", "A", "B", "D"]
    ∧ mget (reorderTodos exC3 [] (some [("A", 7)])).todos "A"
        = some { id := "A", text := "a", priority := 7, completed := false
                 createdAt := "t", subTaskIds := [] } := by
  have h := claim_C3_reorder_sanitization exC3 ["C", "C", "Z", "A"] none
  have h2 := claim_C3_reorder_sanitization exC3 [] (some [("A", 7)])
  constructor
  · rw [h.1]
    rfl
  · exact h2.2.2.1 [("A", 7)] rfl (by decide) "A" 7
      { id := "A", text := "a", priority := 0, completed := false
        createdAt := "t", subTaskIds := [] } (by simp) rfl

/-- C7: `moveTodoToIndex` removes the todo from its current position (its
`indexOf` in `todoOrder`) and reinserts it at the target index interpreted
against the list after removal (effective index `targetIndex - 1` when the
original index precedes `targetIndex`), touching nothing else; it is a no-op
when the todo is absent from `todoOrder`, when the target index is negative,
or when it exceeds the list length. -/
theorem claim_C7_move_todo_to_index (s : AppState) (tid : String) (n : Int) :
    (n < 0 → moveTodoToIndex s tid n = s)
    ∧ (tid ∉ s.todoOrder → moveTodoToIndex s tid n = s)
    ∧ (n > (s.todoOrder.length : Int) → moveTodoToIndex s tid n = s)
    ∧ (∀ i, jsIndexOf s.todoOrder tid = some i → 0 ≤ n → n ≤ (s.todoOrder.length : Int) →
        (moveTodoToIndex s tid n).todoOrder
          = (s.todoOrder.eraseIdx i).insertIdx
              (if (i : Int) < n then n.toNat - 1 else n.toNat) tid
        ∧ (moveTodoToIndex s tid n).todos = s.todos
        ∧ (moveTodoToIndex s tid n).subTasks = s.subTasks
        ∧ (moveTodoToIndex s tid n).collapsedTodoIds = s.collapsedTodoIds) := by
  refine ⟨?_, ?_, ?_, ?_⟩
  · intro h
    unfold moveTodoToIndex
    rw [if_pos h]
  · intro h
    unfold moveTodoToIndex
    by_cases hneg : n < 0
    · rw [if_pos hneg]
    · rw [if_neg hneg, (jsIndexOf_eq_none _ _).mpr h]
  · intro h
    unfold moveTodoToIndex
    have hneg : ¬ n < 0 := by omega
    rw [if_neg hneg]
    cases hj : jsIndexOf s.todoOrder tid with
    | none => rfl
    | some i =>
      dsimp only
      rw [if_pos h]
  · intro i hj h0 h1
    unfold moveTodoToIndex
    rw [if_neg (by omega : ¬ n < 0), hj]
    dsimp only
    rw [if_neg (by omega : ¬ n > (s.todoOrder.length : Int))]
    exact ⟨rfl, rfl, rfl, rfl⟩

theorem claim_C7_move_todo_to_index_witness :
    jsIndexOf exC2.todoOrder "A" = some 0
    ∧ (0 : Int) ≤ 2
    ∧ (2 : Int) ≤ (exC2.todoOrder.length : Int)
    ∧ (moveTodoToIndex exC2 "A" 2).todoOrder = ["B", "A", "C"] := by
  have h := claim_C7_move_todo_to_index exC2 "A" 2
  refine ⟨rfl, by decide, by decide, ?_⟩
  rw [(h.2.2.2 0 rfl (by decide) (by decide)).1]
  rfl

/-! ## JSON values (Persistence Adapter and AI protocol decoders) -/

/-- A JSON value as produced by `JSON.parse`.  A number is carried as
`num (some n)` when integer-valued and `num none` when fractional — the only
observations the embedded code makes of a number are `Number.isInteger` and,
for integers, the value itself (JSON cannot encode NaN or infinities). -/
inductive Json where
  | null
  | bool (b : Bool)
  | num (n : Option Int)
  | str (s : String)
  | arr (items : List Json)
  | obj (fields : List (String × Json))

/-- Property access `j[k]`: `none` is `undefined` (not an object, or key
missing; JS property access with these key names on arrays and primitives
also yields `undefined`). -/
def jget (j : Json) (k : String) : Option Json :=
  match j with
  | .obj fields => mget fields k
  | _ => none

/-- Embeds `isObject(value)` (storage.ts:19): `typeof value === "object" && value !== null`;
arrays are objects in JS. -/
def isObjectJS : Json → Bool
  | .obj _ => true
  | .arr _ => true
  | _ => false

/-- Embeds `Number(value)` composed with the `Number.isInteger` test, restricted to
the integer-or-not outcome the code observes: `some n` when the coercion is
the integer `n`, `none` otherwise (NaN or fractional).  String coercion is
modelled by `jsStringToNumber`; `Number(object)` is NaN, and the exotic
array coercions are also mapped to `none`. -/
def jsNumber : Json → Option Int
  | .num n => n
  | .bool b => some (if b then 1 else 0)
  | .null => some 0
  | .str s => jsStringToNumber s
  | .arr _ => none
  | .obj _ => none

/-- Embeds `Boolean(value)` (JS truthiness) of a defined JSON value; a fractional
number coming from JSON is nonzero, hence truthy. -/
def jsTruthy : Json → Bool
  | .null => false
  | .bool b => b
  | .num (some n) => n != 0
  | .num none => true
  | .str s => !s.isEmpty
  | .arr _ => true
  | .obj _ => true

/-- Embeds `Boolean(o.field)` where the field may be `undefined`. -/
def jsTruthyU : Option Json → Bool
  | none => false
  | some j => jsTruthy j

/-- Embeds `clampPriority` (src/types.ts:38). -/
def clampPriority (value : Json) : Int :=
  match jsNumber value with
  | none => 0
  | some parsed =>
    if parsed ≤ 0 then 0
    else if parsed ≤ 1 then 1
    else if parsed ≥ 5 then 5
    else parsed

/-- Embeds `clampPriority(o.field)` where the field may be `undefined`
(`Number(undefined)` is NaN, hence not an integer). -/
def clampPriorityU (value : Option Json) : Int :=
  match value with
  | none => 0
  | some j => clampPriority j

/-- Embeds `clampRankPriority` (src/openai.ts:45). -/
def clampRankPriority (value : Json) : Int :=
  match jsNumber value with
  | none => 3
  | some parsed =>
    if parsed ≤ 1 then 1
    else if parsed ≥ 5 then 5
    else parsed

/-- Embeds `clampRankPriority(o.field)` where the field may be `undefined`. -/
def clampRankPriorityU (value : Option Json) : Int :=
  match value with
  | none => 3
  | some j => clampRankPriority j

/-- C8: `clampPriority` always lands in [0,5] — 0 on non-numeric or
non-integer coercions, 0 at or below 0, 5 at or above 5, pass-through in
between — and `clampRankPriority` follows the same numeric rule with floor 1
instead of 0 and default 3 on invalid input, landing in [1,5]. -/
theorem claim_C8_priority_clamps (value : Json) (n : Int) :
    (0 ≤ clampPriority value ∧ clampPriority value ≤ 5)
    ∧ (jsNumber value = none → clampPriority value = 0)
    ∧ (jsNumber value = some n → n ≤ 0 → clampPriority value = 0)
    ∧ (jsNumber value = some n → n ≥ 5 → clampPriority value = 5)
    ∧ (jsNumber value = some n → 0 < n → n < 5 → clampPriority value = n)
    ∧ (1 ≤ clampRankPriority value ∧ clampRankPriority value ≤ 5)
    ∧ (jsNumber value = none → clampRankPriority value = 3)
    ∧ (jsNumber value = some n → n ≤ 1 → clampRankPriority value = 1)
    ∧ (jsNumber value = some n → n ≥ 5 → clampRankPriority value = 5)
    ∧ (jsNumber value = some n → 1 < n → n < 5 → clampRankPriority value = n) := by
  unfold clampPriority clampRankPriority
  cases hj : jsNumber value with
  | none =>
    dsimp only
    refine ⟨by omega, fun _ => rfl, ?_, ?_, ?_, by omega, fun _ => rfl, ?_, ?_, ?_⟩
      <;> exact fun h => absurd h (by simp)
  | some m =>
    dsimp only
    refine ⟨?_, ?_, ?_, ?_, ?_, ?_, ?_, ?_, ?_, ?_⟩
    · constructor
      · split_ifs <;> omega
      · split_ifs <;> omega
    · intro h
      exact absurd h (by simp)
    · intro h hle
      obtain rfl := Option.some.inj h
      split_ifs
      all_goals omega
    · intro h hge
      obtain rfl := Option.some.inj h
      split_ifs <;> omega
    · intro h h0 h5
      obtain rfl := Option.some.inj h
      split_ifs <;> omega
    · constructor
      · split_ifs <;> omega
      · split_ifs <;> omega
    · intro h
      exact absurd h (by simp)
    · intro h hle
      obtain rfl := Option.some.inj h
      split_ifs
      all_goals omega
    · intro h hge
      obtain rfl := Option.some.inj h
      split_ifs <;> omega
    · intro h h1 h5
      obtain rfl := Option.some.inj h
      split_ifs <;> omega

theorem claim_C8_priority_clamps_witness :
    clampPriority (Json.num (some (-5))) = 0
    ∧ clampPriority (Json.num none) = 0
    ∧ clampPriority (Json.num (some 7)) = 5
    ∧ clampPriority (Json.num (some 2)) = 2
    ∧ clampRankPriority (Json.num (some 0)) = 1
    ∧ clampRankPriority (Json.str "abc") = 3
    ∧ clampRankPriority (Json.num (some 6)) = 5 := by
  refine ⟨?_, ?_, ?_, ?_, ?_, ?_, ?_⟩
  · exact (claim_C8_priority_clamps (Json.num (some (-5))) (-5)).2.2.1 rfl (by decide)
  · exact (claim_C8_priority_clamps (Json.num none) 0).2.1 rfl
  · exact (claim_C8_priority_clamps (Json.num (some 7)) 7).2.2.2.1 rfl (by decide)
  · exact (claim_C8_priority_clamps (Json.num (some 2)) 2).2.2.2.2.1 rfl (by decide) (by decide)
  · exact (claim_C8_priority_clamps (Json.num (some 0)) 0).2.2.2.2.2.2.2.1 rfl (by decide)
  · exact (claim_C8_priority_clamps (Json.str "abc") 0).2.2.2.2.2.2.1 (by decide)
  · exact (claim_C8_priority_clamps (Json.num (some 6)) 6).2.2.2.2.2.2.2.2.1 rfl (by decide)

/-! ## Persistence Adapter (`src/storage.ts`) -/

def DEFAULT_MODEL : String := "gpt-4.1-mini"

/-- The result of `migrateState`/`loadState`.  The TS type annotates
`subTasks` as `Record<string, SubTask>`, but migrateState (storage.ts:56)
writes the persisted value through an unvalidated cast
(`raw.subTasks as AppState["subTasks"]`), so the embedding keeps that field
as the raw JSON value it actually holds. -/
structure LoadedState where
  todos : List (String × Todo)
  subTasksRaw : Json
  todoOrder : List String
  collapsedTodoIds : List String
  settings : AppSettings
  schemaVersion : Int

/-- Embeds `createInitialState` (storage.ts:5). -/
def createInitialState : LoadedState :=
  { todos := []
    subTasksRaw := Json.obj []
    todoOrder := []
    collapsedTodoIds := []
    settings := { openaiApiKey := "", model := DEFAULT_MODEL }
    schemaVersion := 1 }

/-- Embeds `raw.schemaVersion !== APP_SCHEMA_VERSION` (storage.ts:28-31), as the
boolean "version matches". -/
def versionOk (raw : Json) : Bool :=
  match jget raw "schemaVersion" with
  | some (Json.num (some n)) => n == 1
  | _ => false

/-- Embeds `Object.entries(value)` for the shapes `isObject` lets through
(insertion-ordered fields for objects, index-keyed entries for arrays). -/
def jsEntries : Json → List (String × Json)
  | .obj fields => fields
  | .arr items => items.enum.map (fun p => (toString p.1, p.2))
  | _ => []

def jsonString : Json → Option String
  | .str s => some s
  | _ => none

/-- One normalized todo record of `migrateState` (storage.ts:41-50); `now` is
`new Date().toISOString()`. -/
def normalizeTodo (now id : String) (value : Json) : Todo :=
  { id := match jget value "id" with
      | some (.str s) => s
      | _ => id
    text := match jget value "text" with
      | some (.str s) => s
      | _ => ""
    priority := clampPriorityU (jget value "priority")
    completed := jsTruthyU (jget value "completed")
    createdAt := match jget value "createdAt" with
      | some (.str s) => s
      | _ => now
    subTaskIds := match jget value "subTaskIds" with
      | some (.arr items) => items.filterMap jsonString
      | _ => [] }

/-- The todo-normalization loop of `migrateState` (storage.ts:36-52); the
loop assigns by key (`normalizedTodos[id] = …`), embedded with `mset`. -/
def normalizeTodosFold (now : String) (acc : List (String × Todo))
    (entries : List (String × Json)) : List (String × Todo) :=
  entries.foldl
    (fun acc e => if isObjectJS e.2 then mset acc e.1 (normalizeTodo now e.1 e.2) else acc)
    acc

def normalizeTodos (now : String) (entries : List (String × Json)) : List (String × Todo) :=
  normalizeTodosFold now [] entries

/-- Embeds `migrateState` (storage.ts:23). -/
def migrateState (now : String) (raw : Json) : LoadedState :=
  if isObjectJS raw = false then createInitialState
  else if versionOk raw = false then createInitialState
  else
    { todos := match jget raw "todos" with
        | some v => if isObjectJS v then normalizeTodos now (jsEntries v) else []
        | none => []
      subTasksRaw := match jget raw "subTasks" with
        | some v => if isObjectJS v then v else Json.obj []
        | none => Json.obj []
      todoOrder := match jget raw "todoOrder" with
        | some (Json.arr items) => items.filterMap jsonString
        | _ => []
      collapsedTodoIds := match jget raw "collapsedTodoIds" with
        | some (Json.arr items) => items.filterMap jsonString
        | _ => []
      settings := match jget raw "settings" with
        | some v =>
          if isObjectJS v then
            { openaiApiKey := match jget v "openaiApiKey" with
                | some (.str s) => s
                | _ => ""
              model := match jget v "model" with
                | some (.str s) => if jsTrim s = "" then DEFAULT_MODEL else s
                | _ => DEFAULT_MODEL }
          else createInitialState.settings
        | none => createInitialState.settings
      schemaVersion := 1 }

/-- Embeds `loadState` (storage.ts:80): `stored` is the persisted blob after
`localStorage.getItem` and `JSON.parse`; `none` models a missing blob or any
parse failure (the `catch` path). -/
def loadState (now : String) (stored : Option Json) : LoadedState :=
  match stored with
  | none => createInitialState
  | some raw => migrateState now raw

/-- A persisted sub-task entry of the shape the §3 data model requires. -/
def isWellShapedSubTask (j : Json) : Bool :=
  (match jget j "id" with | some (.str _) => true | _ => false)
  && (match jget j "parentId" with | some (.str _) => true | _ => false)
  && (match jget j "text" with | some (.str _) => true | _ => false)
  && (match jget j "completed" with | some (.bool _) => true | _ => false)
  && (match jget j "createdAt" with | some (.str _) => true | _ => false)
  && (match jget j "source" with | some (.str s) => s == "ai" | _ => false)

theorem clampPriority_range (j : Json) : 0 ≤ clampPriority j ∧ clampPriority j ≤ 5 := by
  unfold clampPriority
  cases jsNumber j with
  | none => dsimp only; omega
  | some m =>
    dsimp only
    constructor <;> split_ifs <;> omega

theorem clampPriorityU_range (o : Option Json) :
    0 ≤ clampPriorityU o ∧ clampPriorityU o ≤ 5 := by
  cases o with
  | none => dsimp [clampPriorityU]; omega
  | some j => exact clampPriority_range j

theorem mget_eq_none_of_notkey {α : Type} (m : List (String × α)) (k : String)
    (hk : k ∉ m.map (fun p => p.1)) : mget m k = none := by
  induction m with
  | nil => rfl
  | cons p rest ih =>
    simp only [List.map_cons, List.mem_cons, not_or] at hk
    have hne : ¬ p.1 = k := fun h => hk.1 h.symm
    show (if p.1 = k then some p.2 else mget rest k) = none
    rw [if_neg hne]
    exact ih hk.2

theorem mget_normalizeTodosFold (now : String) (entries : List (String × Json)) :
    (entries.map (fun e => e.1)).Nodup →
    ∀ (acc : List (String × Todo)) (k : String),
      mget (normalizeTodosFold now acc entries) k
        = match mget entries k with
          | some v => if isObjectJS v then some (normalizeTodo now k v) else mget acc k
          | none => mget acc k := by
  induction entries with
  | nil =>
    intro _ acc k
    simp [normalizeTodosFold, mget]
  | cons e rest ih =>
    intro hnd acc k
    simp only [List.map_cons, List.nodup_cons] at hnd
    have hstep : normalizeTodosFold now acc (e :: rest)
        = normalizeTodosFold now
            (if isObjectJS e.2 then mset acc e.1 (normalizeTodo now e.1 e.2) else acc) rest := rfl
    rw [hstep, ih hnd.2]
    by_cases hk : k = e.1
    · subst hk
      have hrest : mget rest e.1 = none :=
        mget_eq_none_of_notkey rest e.1 hnd.1
      rw [hrest]
      have hhead : mget (e :: rest) e.1 = some e.2 := by
        show (if e.1 = e.1 then some e.2 else mget rest e.1) = some e.2
        rw [if_pos rfl]
      rw [hhead]
      dsimp only
      by_cases hobj : isObjectJS e.2 = true
      · rw [if_pos hobj, if_pos hobj, mget_mset, if_pos rfl]
      · rw [if_neg hobj, if_neg hobj]
    · have hhead : mget (e :: rest) k = mget rest k := by
        have hne : ¬ e.1 = k := fun h => hk h.symm
        show (if e.1 = k then some e.2 else mget rest k) = mget rest k
        rw [if_neg hne]
      rw [hhead]
      have hacc : mget (if isObjectJS e.2 = true
            then mset acc e.1 (normalizeTodo now e.1 e.2) else acc) k = mget acc k := by
        split
        · rw [mget_mset, if_neg hk]
        · rfl
      cases mget rest k with
      | none => rw [hacc]
      | some v =>
        dsimp only
        rw [hacc]

theorem normalizeTodosFold_priority (now : String) (entries : List (String × Json)) :
    ∀ (acc : List (String × Todo)),
      (∀ k t, mget acc k = some t → 0 ≤ t.priority ∧ t.priority ≤ 5) →
      ∀ k t, mget (normalizeTodosFold now acc entries) k = some t →
        0 ≤ t.priority ∧ t.priority ≤ 5 := by
  induction entries with
  | nil => intro acc hacc k t hk; exact hacc k t hk
  | cons e rest ih =>
    intro acc hacc k t hk
    have hstep : normalizeTodosFold now acc (e :: rest)
        = normalizeTodosFold now
            (if isObjectJS e.2 then mset acc e.1 (normalizeTodo now e.1 e.2) else acc) rest := rfl
    rw [hstep] at hk
    refine ih _ ?_ k t hk
    intro k2 t2 hk2
    by_cases hobj : isObjectJS e.2 = true
    · rw [if_pos hobj, mget_mset] at hk2
      by_cases hke : k2 = e.1
      · rw [if_pos hke] at hk2
        obtain rfl := Option.some.inj hk2
        exact clampPriorityU_range _
      · rw [if_neg hke] at hk2
        exact hacc k2 t2 hk2
    · rw [if_neg hobj] at hk2
      exact hacc k2 t2 hk2

theorem versionOk_isObject (raw : Json) (h : versionOk raw = true) :
    isObjectJS raw = true := by
  cases raw <;> simp_all [versionOk, jget, isObjectJS]

/-- C4 counterexample to the claim as stated: a schema-version-1 blob whose
`subTasks` object holds the number 42 at key `"x"` loads with that 42 kept
verbatim in the sub-task mapping — the loader does not re-sanitize sub-task
entries into well-shaped SubTask records. -/
def badSubTasksBlob : Json :=
  Json.obj [("schemaVersion", Json.num (some 1)),
            ("subTasks", Json.obj [("x", Json.num (some 42))])]

theorem claim_C4_counterexample :
    jget (loadState "2024-01-01" (some badSubTasksBlob)).subTasksRaw "x"
      = some (Json.num (some 42))
    ∧ isWellShapedSubTask (Json.num (some 42)) = false :=
  ⟨rfl, rfl⟩

/-- C4 (amended): parse failure, a non-object blob, or a `schemaVersion`
other than 1 (including missing) resets to the default initial state with no
partial merge.  On a version match, todos are re-sanitized per entry
(non-object entries dropped, fields defaulted, priority clamped into [0,5]),
`todoOrder` and `collapsedTodoIds` keep only string entries — but the
sub-task mapping is copied verbatim whenever the persisted `subTasks` field
is object-shaped (reset to empty otherwise), with no per-entry validation. -/
theorem claim_C4_load_reset_and_sanitize (now : String) (raw : Json) :
    (loadState now none = createInitialState)
    ∧ (isObjectJS raw = false → migrateState now raw = createInitialState)
    ∧ (versionOk raw = false → migrateState now raw = createInitialState)
    ∧ (versionOk raw = true →
        ((migrateState now raw).subTasksRaw
            = match jget raw "subTasks" with
              | some v => if isObjectJS v then v else Json.obj []
              | none => Json.obj [])
        ∧ ((migrateState now raw).todoOrder
            = match jget raw "todoOrder" with
              | some (Json.arr items) => items.filterMap jsonString
              | _ => [])
        ∧ ((migrateState now raw).collapsedTodoIds
            = match jget raw "collapsedTodoIds" with
              | some (Json.arr items) => items.filterMap jsonString
              | _ => [])
        ∧ (∀ k t, mget (migrateState now raw).todos k = some t →
            0 ≤ t.priority ∧ t.priority ≤ 5)
        ∧ (∀ entries, jget raw "todos" = some (Json.obj entries) →
            (entries.map (fun e => e.1)).Nodup →
            ∀ k, mget (migrateState now raw).todos k
              = match mget entries k with
                | some v => if isObjectJS v then some (normalizeTodo now k v) else none
                | none => none)
        ∧ (migrateState now raw).schemaVersion = 1) := by
  refine ⟨rfl, ?_, ?_, ?_⟩
  · intro h
    unfold migrateState
    rw [if_pos h]
  · intro h
    unfold migrateState
    by_cases hobj : isObjectJS raw = false
    · rw [if_pos hobj]
    · rw [if_neg hobj, if_pos h]
  · intro h
    have hobj := versionOk_isObject raw h
    have hv : ¬ versionOk raw = false := by rw [h]; exact fun he => by cases he
    have ho : ¬ isObjectJS raw = false := by rw [hobj]; exact fun he => by cases he
    unfold migrateState
    rw [if_neg ho, if_neg hv]
    dsimp only
    refine ⟨rfl, rfl, rfl, ?_, ?_, rfl⟩
    · intro k t hk
      cases hto : jget raw "todos" with
      | none =>
        rw [hto] at hk
        simp [mget] at hk
      | some v =>
        rw [hto] at hk
        dsimp only at hk
        by_cases hvo : isObjectJS v = true
        · rw [if_pos hvo] at hk
          exact normalizeTodosFold_priority now (jsEntries v) []
            (fun k2 t2 hk2 => by simp [mget] at hk2) k t hk
        · rw [if_neg hvo] at hk
          simp [mget] at hk
    · intro entries hent hnd k
      rw [hent]
      dsimp only
      have hred : (if isObjectJS (Json.obj entries) = true
          then normalizeTodos now (jsEntries (Json.obj entries))
          else ([] : List (String × Todo))) = normalizeTodosFold now [] entries := rfl
      rw [hred, mget_normalizeTodosFold now entries hnd [] k]
      cases mget entries k with
      | none => rfl
      | some v =>
        dsimp only
        split <;> rfl

/-- A version-matching blob with ill-shaped pieces: todo `"a"` lacks most
fields and has an out-of-range priority, todo `"b"` is not object-shaped, and
`todoOrder` contains a number. -/
def goodBlob : Json :=
  Json.obj [("schemaVersion", Json.num (some 1)),
            ("todos", Json.obj
              [("a", Json.obj [("text", Json.str "hi"), ("priority", Json.num (some 9))]),
               ("b", Json.num (some 3))]),
            ("todoOrder", Json.arr [Json.str "a", Json.num (some 1), Json.str "b"])]

theorem claim_C4_load_reset_and_sanitize_witness :
    versionOk goodBlob = true
    ∧ (migrateState "t0" goodBlob).todoOrder = ["a", "b"]
    ∧ mget (migrateState "t0" goodBlob).todos "a"
        = some { id := "a", text := "hi", priority := 5, completed := false
                 createdAt := "t0", subTaskIds := [] }
    ∧ mget (migrateState "t0" goodBlob).todos "b" = none
    ∧ loadState "t0" none = createInitialState
    ∧ migrateState "t0" (Json.num (some 1)) = createInitialState := by
  have h := claim_C4_load_reset_and_sanitize "t0" goodBlob
  have h2 := claim_C4_load_reset_and_sanitize "t0" (Json.num (some 1))
  refine ⟨rfl, ?_, ?_, ?_, h.1, h2.2.1 rfl⟩
  · rw [(h.2.2.2 rfl).2.1]
    rfl
  · rw [(h.2.2.2 rfl).2.2.2.2.1
      [("a", Json.obj [("text", Json.str "hi"), ("priority", Json.num (some 9))]),
       ("b", Json.num (some 3))] rfl (by decide) "a"]
    rfl
  · rw [(h.2.2.2 rfl).2.2.2.2.1
      [("a", Json.obj [("text", Json.str "hi"), ("priority", Json.num (some 9))]),
       ("b", Json.num (some 3))] rfl (by decide) "b"]
    rfl

/-! ## AI protocol layer (`src/openai.ts`)

The network transport is outside the embedding: the two operations are
modelled as functions of their inputs plus the decoded response JSON
(`JSON.parse` of the text extracted from the API envelope), and
`rankTodosByAi` additionally reports whether the path through
`callResponsesApi` (the actual network call) was taken. -/

/-- The machine-readable `AppError` code (openai.ts:36). -/
inductive AppErrorCode where
  | MISSING_API_KEY
  | OPENAI_API_ERROR
  | INVALID_JSON
  deriving DecidableEq, Repr

/-- Embeds `normalizeApiKey` (openai.ts:59). -/
def normalizeApiKey (apiKey : String) : Except AppErrorCode String :=
  let normalized := jsTrim apiKey
  if normalized = "" then .error .MISSING_API_KEY
  else .ok normalized

/-- Embeds `typeof item.text === "string" ? item.text.trim() : ""` (openai.ts:216). -/
def genItemText (item : Json) : String :=
  match jget item "text" with
  | some (.str s) => jsTrim s
  | _ => ""

/-- The sanitize loop of `generateSubTasks` (openai.ts:212-225), with the
`seen` set accumulated. -/
def sanitizeGenItems (existingTextSet : List String) :
    List Json → List String → List String
  | [], _ => []
  | item :: rest, seen =>
    let text := genItemText item
    if text = "" then sanitizeGenItems existingTextSet rest seen
    else if existingTextSet.contains text || seen.contains text then
      sanitizeGenItems existingTextSet rest seen
    else text :: sanitizeGenItems existingTextSet rest (text :: seen)

/-- Embeds `generateSubTasks` (openai.ts:154), from the decoded response. -/
def generateSubTasks (apiKey : String) (existingSubTaskTexts : List String)
    (decoded : Json) : Except AppErrorCode (List String) :=
  match normalizeApiKey apiKey with
  | .error e => .error e
  | .ok _ =>
    let existingTextSet := (existingSubTaskTexts.map jsTrim).filter (fun t => !(t == ""))
    match jget decoded "subtasks" with
    | some (.arr items) => .ok ((sanitizeGenItems existingTextSet items []).take 4)
    | _ => .error .INVALID_JSON

/-- Embeds `RankTodosResult` (openai.ts:14); the `priorities` record is kept as its
insertion-ordered entry list. -/
structure RankTodosResult where
  orderedIds : List String
  priorities : List (String × Int)
  deriving DecidableEq, Repr

/-- The sanitize loop of `rankTodosByAi` (openai.ts:298-313). -/
def sanitizeRanked (inputIds : List String) :
    List Json → List String → List String × List (String × Int)
  | [], _ => ([], [])
  | item :: rest, seen =>
    match jget item "id" with
    | some (.str id) =>
      if inputIds.contains id && !(seen.contains id) then
        let pr := clampRankPriorityU (jget item "priority")
        let res := sanitizeRanked inputIds rest (id :: seen)
        (id :: res.1, (id, pr) :: res.2)
      else sanitizeRanked inputIds rest seen
    | _ => sanitizeRanked inputIds rest seen

/-- Embeds `rankTodosByAi` (openai.ts:230), from the decoded response.  The boolean
in the result records whether the external endpoint was invoked (`false` on
the 0/1-todo shortcut, which returns before `callResponsesApi`). -/
def rankTodosByAi (apiKey : String) (todos : List (String × String))
    (decoded : Json) : Except AppErrorCode (Bool × RankTodosResult) :=
  match normalizeApiKey apiKey with
  | .error e => .error e
  | .ok _ =>
    if todos.length ≤ 1 then
      .ok (false,
        { orderedIds := todos.map (fun t => t.1)
          priorities :=
            match todos with
            | [] => []
            | single :: _ => [(single.1, 3)] })
    else
      match jget decoded "ordered" with
      | some (.arr items) =>
        let inputIds := todos.map (fun t => t.1)
        let res := sanitizeRanked inputIds items []
        .ok (true, { orderedIds := res.1, priorities := res.2 })
      | _ => .error .INVALID_JSON

/-! ### Spec-side characterizations of the two sanitize loops -/

/-- Spec-side: the id of a decoded ranking entry when it is a string id that
belongs to the request, `none` otherwise (the entry is to be dropped). -/
def validRankId (inputIds : List String) (item : Json) : Option String :=
  match jget item "id" with
  | some (.str id) => if inputIds.contains id then some id else none
  | _ => none

theorem sanitizeRanked_fst (inputIds : List String) :
    ∀ (items : List Json) (seen : List String),
      (sanitizeRanked inputIds items seen).1
        = keepFirsts seen (items.filterMap (validRankId inputIds)) := by
  intro items
  induction items with
  | nil => intro seen; rfl
  | cons item rest ih =>
    intro seen
    simp only [sanitizeRanked, List.filterMap_cons]
    cases hid : jget item "id" with
    | none =>
      have hv : validRankId inputIds item = none := by
        unfold validRankId
        rw [hid]
      rw [hv]
      exact ih seen
    | some j =>
      cases j with
      | str id =>
        have hv : validRankId inputIds item
            = if inputIds.contains id = true then some id else none := by
          unfold validRankId
          rw [hid]
        rw [hv]
        dsimp only
        by_cases hin : inputIds.contains id = true
        · rw [if_pos hin]
          dsimp only
          by_cases hseen : seen.contains id = true
          · rw [show (inputIds.contains id && !(seen.contains id)) = false by
                rw [hin, hseen]; rfl]
            simp only [Bool.false_eq_true, if_false]
            rw [keepFirsts, if_pos hseen]
            exact ih seen
          · rw [show (inputIds.contains id && !(seen.contains id)) = true by
                rw [hin, Bool.eq_false_iff.mpr hseen]; rfl]
            simp only [if_true]
            rw [keepFirsts,
              if_neg (by rw [Bool.eq_false_iff.mpr hseen]; exact Bool.false_ne_true)]
            rw [ih (id :: seen)]
        · rw [if_neg hin]
          rw [show (inputIds.contains id && !(seen.contains id)) = false by
              rw [Bool.eq_false_iff.mpr hin]; rfl]
          simp only [Bool.false_eq_true, if_false]
          exact ih seen
      | null =>
        have hv : validRankId inputIds item = none := by
          unfold validRankId
          rw [hid]
        rw [hv]
        exact ih seen
      | bool b =>
        have hv : validRankId inputIds item = none := by
          unfold validRankId
          rw [hid]
        rw [hv]
        exact ih seen
      | num n =>
        have hv : validRankId inputIds item = none := by
          unfold validRankId
          rw [hid]
        rw [hv]
        exact ih seen
      | arr xs =>
        have hv : validRankId inputIds item = none := by
          unfold validRankId
          rw [hid]
        rw [hv]
        exact ih seen
      | obj fs =>
        have hv : validRankId inputIds item = none := by
          unfold validRankId
          rw [hid]
        rw [hv]
        exact ih seen

theorem sanitizeRanked_keys (inputIds : List String) :
    ∀ (items : List Json) (seen : List String),
      (sanitizeRanked inputIds items seen).2.map (fun pr => pr.1)
        = (sanitizeRanked inputIds items seen).1 := by
  intro items
  induction items with
  | nil => intro seen; rfl
  | cons item rest ih =>
    intro seen
    simp only [sanitizeRanked]
    cases hid : jget item "id" with
    | none => exact ih seen
    | some j =>
      cases j with
      | str id =>
        dsimp only
        by_cases hc : (inputIds.contains id && !(seen.contains id)) = true
        · rw [if_pos hc]
          dsimp only
          rw [List.map_cons, ih (id :: seen)]
        · rw [if_neg hc]
          exact ih seen
      | null => exact ih seen
      | bool b => exact ih seen
      | num n => exact ih seen
      | arr xs => exact ih seen
      | obj fs => exact ih seen

theorem validRankId_mem (inputIds : List String) (item : Json) (id : String)
    (h : validRankId inputIds item = some id) : id ∈ inputIds := by
  unfold validRankId at h
  cases hid : jget item "id" with
  | none => rw [hid] at h; cases h
  | some j =>
    rw [hid] at h
    cases j with
    | str s =>
      dsimp only at h
      by_cases hin : inputIds.contains s = true
      · rw [if_pos hin] at h
        obtain rfl := Option.some.inj h
        simpa using hin
      · rw [if_neg hin] at h
        cases h
    | null => cases h
    | bool b => cases h
    | num n => cases h
    | arr xs => cases h
    | obj fs => cases h

/-- Spec-side sanitization pipeline of `generateSubTasks`, as the spec words
it: trim each entry, drop empties, drop exact matches (after trim) with
existing sub-task texts, drop in-batch duplicates keeping the first
occurrence, truncate to at most 4. -/
def specGenSanitize (existingSubTaskTexts : List String) (items : List Json) : List String :=
  let existingTextSet := (existingSubTaskTexts.map jsTrim).filter (fun t => !(t == ""))
  (keepFirsts []
    ((items.map genItemText).filter
      (fun t => !(t == "") && !(existingTextSet.contains t)))).take 4

theorem sanitizeGenItems_eq (ex : List String) :
    ∀ (items : List Json) (seen : List String),
      sanitizeGenItems ex items seen
        = keepFirsts seen
            ((items.map genItemText).filter (fun t => !(t == "") && !(ex.contains t))) := by
  intro items
  induction items with
  | nil => intro seen; rfl
  | cons item rest ih =>
    intro seen
    simp only [sanitizeGenItems, List.map_cons, List.filter_cons]
    by_cases h1 : genItemText item = ""
    · rw [if_pos h1]
      rw [show (!(genItemText item == "") && !(ex.contains (genItemText item))) = false by
          rw [h1]; rfl]
      simp only [Bool.false_eq_true, if_false]
      exact ih seen
    · rw [if_neg h1]
      have h1b : (genItemText item == "") = false := by
        rw [beq_eq_false_iff_ne]
        exact h1
      by_cases h2 : ex.contains (genItemText item) = true
      · rw [if_pos (show (ex.contains (genItemText item)
              || seen.contains (genItemText item)) = true by rw [h2]; rfl)]
        rw [show (!(genItemText item == "") && !(ex.contains (genItemText item))) = false by
            rw [h2, h1b]; rfl]
        simp only [Bool.false_eq_true, if_false]
        exact ih seen
      · have h2b : ex.contains (genItemText item) = false := Bool.eq_false_iff.mpr h2
        rw [show (!(genItemText item == "") && !(ex.contains (genItemText item))) = true by
            rw [h2b, h1b]; rfl]
        simp only [if_true]
        by_cases h3 : seen.contains (genItemText item) = true
        · rw [if_pos (show (ex.contains (genItemText item)
                || seen.contains (genItemText item)) = true by rw [h2b, h3]; rfl)]
          rw [keepFirsts, if_pos h3]
          exact ih seen
        · have h3b : seen.contains (genItemText item) = false := Bool.eq_false_iff.mpr h3
          rw [if_neg (show ¬ (ex.contains (genItemText item)
                || seen.contains (genItemText item)) = true by rw [h2b, h3b]; simp)]
          rw [keepFirsts, if_neg (by rw [h3b]; exact Bool.false_ne_true)]
          rw [ih (genItemText item :: seen)]

/-- C6: with a usable key and a decoded `subtasks` array, `generateSubTasks`
returns exactly the spec pipeline — entries trimmed, empties dropped, exact
matches with trimmed existing texts dropped, in-batch duplicates dropped
keeping the first occurrence, and the list truncated to at most 4 items
regardless of how many the model returned. -/
theorem claim_C6_generate_subtasks_sanitization (apiKey : String)
    (existingSubTaskTexts : List String) (decoded : Json) (items : List Json)
    (hkey : jsTrim apiKey ≠ "") (hdec : jget decoded "subtasks" = some (Json.arr items)) :
    generateSubTasks apiKey existingSubTaskTexts decoded
      = .ok (specGenSanitize existingSubTaskTexts items)
    ∧ (specGenSanitize existingSubTaskTexts items).length ≤ 4
    ∧ (specGenSanitize existingSubTaskTexts items).Nodup := by
  refine ⟨?_, ?_, ?_⟩
  · unfold generateSubTasks normalizeApiKey
    dsimp only
    rw [if_neg hkey, hdec]
    dsimp only
    rw [sanitizeGenItems_eq]
    rfl
  · exact List.length_take_le 4 _
  · exact (List.take_sublist 4 _).nodup (nodup_keepFirsts _ _)

/-- The model output of the spec's sub-task generation dedup example. -/
def genBlob : Json :=
  Json.obj [("subtasks", Json.arr
    [Json.obj [("text", Json.str "buy milk")],
     Json.obj [("text", Json.str "call mom")],
     Json.obj [("text", Json.str "call mom")]])]

theorem claim_C6_generate_subtasks_sanitization_witness :
    jsTrim "sk-key" ≠ ""
    ∧ generateSubTasks "sk-key" ["buy milk"] genBlob = .ok ["call mom"] := by
  have h := claim_C6_generate_subtasks_sanitization "sk-key" ["buy milk"] genBlob
    [Json.obj [("text", Json.str "buy milk")],
     Json.obj [("text", Json.str "call mom")],
     Json.obj [("text", Json.str "call mom")]] (by decide) rfl
  refine ⟨by decide, ?_⟩
  rw [h.1]
  rfl

/-- C5: with a usable key, `rankTodosByAi` on zero or one todos answers
without invoking the endpoint (flag `false`, result independent of any
response) — one todo is ranked alone with priority 3 — and on two or more
todos every decoded entry whose id is not among the input ids or repeats an
earlier entry is dropped, so `orderedIds` is a duplicate-free list of input
ids (first occurrence kept, response order) and `priorities` has exactly
those ids as keys. -/
theorem claim_C5_rank_todos (apiKey : String) (todos : List (String × String))
    (decoded : Json) (hkey : jsTrim apiKey ≠ "") :
    (todos = [] → rankTodosByAi apiKey todos decoded
        = .ok (false, { orderedIds := [], priorities := [] }))
    ∧ (∀ single, todos = [single] → rankTodosByAi apiKey todos decoded
        = .ok (false, { orderedIds := [single.1], priorities := [(single.1, 3)] }))
    ∧ (∀ items, 2 ≤ todos.length → jget decoded "ordered" = some (Json.arr items) →
        ∃ res, rankTodosByAi apiKey todos decoded = .ok (true, res)
          ∧ res.orderedIds
              = keepFirsts [] (items.filterMap (validRankId (todos.map (fun t => t.1))))
          ∧ res.orderedIds.Nodup
          ∧ (∀ id ∈ res.orderedIds, id ∈ todos.map (fun t => t.1))
          ∧ res.priorities.map (fun pr => pr.1) = res.orderedIds) := by
  refine ⟨?_, ?_, ?_⟩
  · intro h
    subst h
    unfold rankTodosByAi normalizeApiKey
    dsimp only
    rw [if_neg hkey]
    rfl
  · intro single h
    subst h
    unfold rankTodosByAi normalizeApiKey
    dsimp only
    rw [if_neg hkey]
    rfl
  · intro items hlen hord
    unfold rankTodosByAi normalizeApiKey
    dsimp only
    rw [if_neg hkey]
    dsimp only
    rw [if_neg (by omega : ¬ todos.length ≤ 1), hord]
    dsimp only
    refine ⟨_, rfl, ?_, ?_, ?_, ?_⟩
    · exact sanitizeRanked_fst _ items []
    · rw [sanitizeRanked_fst _ items []]
      exact nodup_keepFirsts _ _
    · intro id hid
      rw [sanitizeRanked_fst _ items []] at hid
      have h2 := ((mem_keepFirsts _ _ _).mp hid).1
      obtain ⟨item, _, hv⟩ := List.mem_filterMap.mp h2
      exact validRankId_mem _ item id hv
    · exact sanitizeRanked_keys _ items []

/-- A decoded ranking response with a duplicate id, an invented id and an
out-of-range priority. -/
def rankBlob : Json :=
  Json.obj [("ordered", Json.arr
    [Json.obj [("id", Json.str "b"), ("priority", Json.num (some 2))],
     Json.obj [("id", Json.str "b"), ("priority", Json.num (some 1))],
     Json.obj [("id", Json.str "z"), ("priority", Json.num (some 1))],
     Json.obj [("id", Json.str "a"), ("priority", Json.num (some 9))]])]

theorem claim_C5_rank_todos_witness :
    jsTrim "sk-key" ≠ ""
    ∧ rankTodosByAi "sk-key" [] Json.null
        = .ok (false, { orderedIds := [], priorities := [] })
    ∧ rankTodosByAi "sk-key" [("t1", "x")] Json.null
        = .ok (false, { orderedIds := ["t1"], priorities := [("t1", 3)] })
    ∧ rankTodosByAi "sk-key" [("a", "x"), ("b", "y")] rankBlob
        = .ok (true, { orderedIds := ["b", "a"], priorities := [("b", 2), ("a", 5)] }) := by
  have h0 := claim_C5_rank_todos "sk-key" [] Json.null (by decide)
  have h1 := claim_C5_rank_todos "sk-key" [("t1", "x")] Json.null (by decide)
  exact ⟨by decide, h0.1 rfl, h1.2.1 ("t1", "x") rfl, rfl⟩

/-- C10: the credential check runs before anything else in both operations —
a blank or whitespace-only key makes them throw the missing-credential code
for every input, including the 0/1-todo inputs of `rankTodosByAi` that would
otherwise take the no-network shortcut. -/
theorem claim_C10_credential_check_first (apiKey : String) (h : jsTrim apiKey = "") :
    (∀ existingSubTaskTexts decoded,
        generateSubTasks apiKey existingSubTaskTexts decoded
          = .error AppErrorCode.MISSING_API_KEY)
    ∧ (∀ todos decoded,
        rankTodosByAi apiKey todos decoded = .error AppErrorCode.MISSING_API_KEY) := by
  constructor
  · intro ex dec
    unfold generateSubTasks normalizeApiKey
    dsimp only
    rw [if_pos h]
  · intro todos dec
    unfold rankTodosByAi normalizeApiKey
    dsimp only
    rw [if_pos h]

theorem claim_C10_credential_check_first_witness :
    jsTrim "   " = ""
    ∧ rankTodosByAi "   " [] Json.null = .error AppErrorCode.MISSING_API_KEY
    ∧ rankTodosByAi "   " [("t1", "x")] Json.null = .error AppErrorCode.MISSING_API_KEY
    ∧ generateSubTasks "   " ["a"] Json.null = .error AppErrorCode.MISSING_API_KEY := by
  have h := claim_C10_credential_check_first "   " (by decide)
  exact ⟨by decide, h.2 [] Json.null, h.2 [("t1", "x")] Json.null, h.1 ["a"] Json.null⟩

end Pirido
